import Mathlib

/-!
# BLAKE2b (Argon2 variant) of `algo/argon2/argon2d/blake2/blake2b.c`

A shallow embedding of the C translation unit and theorems about it.

Conventions of the embedding

* bytes and machine words are natural numbers; every addition that can wrap in C
  carries its modulus explicitly (`% 2 ^ 64`, `% 2 ^ 32`, `% 256`);
* a C array is a `List Nat`; a pointer/length pair `(in, inlen)` is the list of
  the `inlen` bytes, so `inlen` is `pin.length` (lengths of objects that exist in
  memory never wrap a `size_t`);
* a function that mutates `*S` takes the state and returns the new one together
  with the `int` status of the C function;
* an access outside the bounds of an array is undefined behaviour in C; the
  embedding returns `none` there (`memcpy`, `memset` check their bounds);
* the bytes written to an output pointer are returned as a list.
-/

namespace Blake2b

set_option linter.unusedVariables false

/-! ## Constants, helpers of `blake2.h` / `blake2-impl.h` -/

/-- Modelled from the spec: `BLAKE2B_BLOCKBYTES` of `blake2.h` (not among the sources), the
size of one compression block, "a fixed-capacity byte buffer sized to exactly one
compression block (128 bytes)". -/
def BLAKE2B_BLOCKBYTES : Nat := 128

/-- Modelled from the spec: `BLAKE2B_OUTBYTES` of `blake2.h` (not among the sources), "the
native 64-byte maximum" digest size. -/
def BLAKE2B_OUTBYTES : Nat := 64

/-- Modelled from the spec: `load64` of `blake2-impl.h` (not among the sources): the 64-bit
little-endian word stored in the eight bytes `src` points to. A pointer into an
array is the list of the bytes from that position on, so `load64(p + k)` is
`load64 (p.drop k)`. -/
def load64 (src : List Nat) : Nat :=
  src.getD 0 0 + src.getD 1 0 * 2 ^ 8 + src.getD 2 0 * 2 ^ 16 + src.getD 3 0 * 2 ^ 24
    + src.getD 4 0 * 2 ^ 32 + src.getD 5 0 * 2 ^ 40 + src.getD 6 0 * 2 ^ 48
    + src.getD 7 0 * 2 ^ 56

/-- Modelled from the spec: `store64` of `blake2-impl.h` (not among the sources): the eight
bytes of a 64-bit word, little-endian. -/
def store64 (w : Nat) : List Nat :=
  [w % 256, w / 2 ^ 8 % 256, w / 2 ^ 16 % 256, w / 2 ^ 24 % 256,
   w / 2 ^ 32 % 256, w / 2 ^ 40 % 256, w / 2 ^ 48 % 256, w / 2 ^ 56 % 256]

/-- Modelled from the spec: `store32` of `blake2-impl.h` (not among the sources): the four
bytes of a 32-bit word, little-endian. -/
def store32 (w : Nat) : List Nat :=
  [w % 256, w / 2 ^ 8 % 256, w / 2 ^ 16 % 256, w / 2 ^ 24 % 256]

/-- Modelled from the spec: `rotr64` of `blake2-impl.h` (not among the sources): right
rotation of a 64-bit word, `(w >> c) | (w << (64 - c))`. -/
def rotr64 (w c : Nat) : Nat :=
  (w >>> c ||| w <<< (64 - c)) % 2 ^ 64

/-- The C library `memcpy(&dst[off], src, n)`: `n` bytes of `src` overwrite
`dst[off .. off+n)`. Writing outside `dst` or reading outside `src` is undefined
behaviour (`none`). -/
def memcpy (dst : List Nat) (off : Nat) (src : List Nat) (n : Nat) : Option (List Nat) :=
  if off + n ≤ dst.length ∧ n ≤ src.length then
    some (dst.take off ++ src.take n ++ dst.drop (off + n))
  else none

/-- The C library `memset(&dst[off], c, n)`; writing outside `dst` is undefined
behaviour (`none`). -/
def memset (dst : List Nat) (off : Nat) (c : Nat) (n : Nat) : Option (List Nat) :=
  if off + n ≤ dst.length then
    some (dst.take off ++ List.replicate n c ++ dst.drop (off + n))
  else none

/-- Modelled from the spec: `blake2b_state` of `blake2.h` (not among the sources), the
"Chaining State": `h` (8 words), `t` and `f` (2 words each), `buf` (128 bytes),
`buflen`, `outlen` and `last_node`. -/
structure blake2b_state where
  h : List Nat
  t : Nat × Nat
  f : Nat × Nat
  buf : List Nat
  buflen : Nat
  outlen : Nat
  last_node : Nat
deriving DecidableEq

/-- Modelled from the spec: `blake2b_param` of `blake2.h` (not among the sources), the
"Parameter Block": "digest_length, key_length, fanout, depth, leaf_length as
32-bit LE, node_offset as 64-bit LE, node_depth, inner_length, 14 reserved bytes,
16-byte salt, 16-byte personalization". -/
structure blake2b_param where
  digest_length : Nat
  key_length : Nat
  fanout : Nat
  depth : Nat
  leaf_length : Nat
  node_offset : Nat
  node_depth : Nat
  inner_length : Nat
  reserved : List Nat
  salt : List Nat
  personal : List Nat
deriving DecidableEq

/-- Modelled from the spec: the 64 bytes of a parameter block as laid out in memory (the
cast `(const unsigned char *)P` of `blake2b_init_param`), fields in declaration
order, multi-byte fields little-endian. -/
def param_bytes (P : blake2b_param) : List Nat :=
  [P.digest_length, P.key_length, P.fanout, P.depth] ++ store32 P.leaf_length
    ++ store64 P.node_offset ++ [P.node_depth, P.inner_length]
    ++ P.reserved ++ P.salt ++ P.personal

/-! ## The translation unit -/

def blake2b_IV : List Nat :=
  [0x6a09e667f3bcc908, 0xbb67ae8584caa73b,
   0x3c6ef372fe94f82b, 0xa54ff53a5f1d36f1,
   0x510e527fade682d1, 0x9b05688c2b3e6c1f,
   0x1f83d9abfb41bd6b, 0x5be0cd19137e2179]

def blake2b_sigma : List (List Nat) :=
  [[0, 1, 2, 3, 4, 5, 6, 7, 8, 9, 10, 11, 12, 13, 14, 15],
   [14, 10, 4, 8, 9, 15, 13, 6, 1, 12, 0, 2, 11, 7, 5, 3],
   [11, 8, 12, 0, 5, 2, 15, 13, 10, 14, 3, 6, 7, 1, 9, 4],
   [7, 9, 3, 1, 13, 12, 11, 14, 2, 6, 5, 10, 4, 0, 15, 8],
   [9, 0, 5, 7, 2, 4, 10, 15, 14, 1, 11, 12, 6, 8, 3, 13],
   [2, 12, 6, 10, 0, 11, 8, 3, 4, 13, 7, 5, 15, 14, 1, 9],
   [12, 5, 1, 15, 14, 13, 4, 10, 0, 7, 6, 3, 9, 2, 8, 11],
   [13, 11, 7, 14, 12, 1, 3, 9, 5, 0, 15, 4, 8, 6, 2, 10],
   [6, 15, 14, 9, 11, 3, 0, 8, 12, 2, 13, 7, 1, 4, 10, 5],
   [10, 2, 8, 4, 7, 6, 1, 5, 15, 11, 9, 14, 3, 12, 13, 0],
   [0, 1, 2, 3, 4, 5, 6, 7, 8, 9, 10, 11, 12, 13, 14, 15],
   [14, 10, 4, 8, 9, 15, 13, 6, 1, 12, 0, 2, 11, 7, 5, 3]]

/-- Sets the last-node flag: `S->f[1] = (uint64_t)-1`. -/
def blake2b_set_lastnode (S : blake2b_state) : blake2b_state :=
  { S with f := (S.f.1, 2 ^ 64 - 1) }

def blake2b_set_lastblock (S : blake2b_state) : blake2b_state :=
  let S := if S.last_node ≠ 0 then blake2b_set_lastnode S else S
  { S with f := (2 ^ 64 - 1, S.f.2) }

/-- Counter increment `S->t[0] += inc; S->t[1] += (S->t[0] < inc);` on 64-bit words. -/
def blake2b_increment_counter (S : blake2b_state) (inc : Nat) : blake2b_state :=
  let t0 := (S.t.1 + inc) % 2 ^ 64
  let t1 := (S.t.2 + (if t0 < inc then 1 else 0)) % 2 ^ 64
  { S with t := (t0, t1) }

def blake2b_invalidate_state (S : blake2b_state) : blake2b_state :=
  blake2b_set_lastblock S

/-- After `memset(S, 0, sizeof(*S)); memcpy(S->h, blake2b_IV, sizeof(S->h));` the previous
contents of `*S` are overwritten, so the function is the state it leaves. -/
def blake2b_init0 : blake2b_state :=
  { h := blake2b_IV, t := (0, 0), f := (0, 0),
    buf := List.replicate BLAKE2B_BLOCKBYTES 0, buflen := 0, outlen := 0, last_node := 0 }

def blake2b_init_param (P : blake2b_param) : Int × blake2b_state :=
  let p := param_bytes P
  let S := blake2b_init0
  let S := (List.range 8).foldl
    (fun S i => { S with h := S.h.set i (S.h.getD i 0 ^^^ load64 (p.drop (i * 8))) }) S
  let S := { S with outlen := P.digest_length }
  (0, S)

/-- Sequential blake2b initialization. -/
def blake2b_init (outlen : Nat) : Int × blake2b_state :=
  let P : blake2b_param :=
    { digest_length := outlen % 256, key_length := 0, fanout := 1, depth := 1,
      leaf_length := 0, node_offset := 0, node_depth := 0, inner_length := 0,
      reserved := List.replicate 14 0, salt := List.replicate 16 0,
      personal := List.replicate 16 0 }
  blake2b_init_param P

/-- The array subscript `a[i]` on an array of words, by recursion on the index; it is
`a.getD i 0` (`word_at_eq_getD`). -/
def word_at (a : List Nat) : Nat → Nat
  | 0 => a.headD 0
  | i + 1 => word_at a.tail i

/-- The macro `G(r, i, a, b, c, d)` of `blake2b_compress`: `a b c d` are the values of
the four words of `v` the macro is applied to, and the result is their new values. -/
def G (m : List Nat) (r i : Nat) (a b c d : Nat) : Nat × Nat × Nat × Nat :=
  let a := (a + b + word_at m (word_at (blake2b_sigma.getD r []) (2 * i + 0))) % 2 ^ 64
  let d := rotr64 (d ^^^ a) 32
  let c := (c + d) % 2 ^ 64
  let b := rotr64 (b ^^^ c) 24
  let a := (a + b + word_at m (word_at (blake2b_sigma.getD r []) (2 * i + 1))) % 2 ^ 64
  let d := rotr64 (d ^^^ a) 16
  let c := (c + d) % 2 ^ 64
  let b := rotr64 (b ^^^ c) 63
  (a, b, c, d)

/-- The 96 applications of `G` in `blake2b_compress`, in source order, on the words
`v[0], ..., v[15]`. -/
def compress_rounds (m : List Nat) (v : List Nat) : List Nat :=
  let v0 := v.getD 0 0
  let v1 := v.getD 1 0
  let v2 := v.getD 2 0
  let v3 := v.getD 3 0
  let v4 := v.getD 4 0
  let v5 := v.getD 5 0
  let v6 := v.getD 6 0
  let v7 := v.getD 7 0
  let v8 := v.getD 8 0
  let v9 := v.getD 9 0
  let v10 := v.getD 10 0
  let v11 := v.getD 11 0
  let v12 := v.getD 12 0
  let v13 := v.getD 13 0
  let v14 := v.getD 14 0
  let v15 := v.getD 15 0
  let (v0, v4, v8, v12) := G m 0 0 v0 v4 v8 v12
  let (v1, v5, v9, v13) := G m 0 1 v1 v5 v9 v13
  let (v2, v6, v10, v14) := G m 0 2 v2 v6 v10 v14
  let (v3, v7, v11, v15) := G m 0 3 v3 v7 v11 v15
  let (v0, v5, v10, v15) := G m 0 4 v0 v5 v10 v15
  let (v1, v6, v11, v12) := G m 0 5 v1 v6 v11 v12
  let (v2, v7, v8, v13) := G m 0 6 v2 v7 v8 v13
  let (v3, v4, v9, v14) := G m 0 7 v3 v4 v9 v14
  let (v0, v4, v8, v12) := G m 1 0 v0 v4 v8 v12
  let (v1, v5, v9, v13) := G m 1 1 v1 v5 v9 v13
  let (v2, v6, v10, v14) := G m 1 2 v2 v6 v10 v14
  let (v3, v7, v11, v15) := G m 1 3 v3 v7 v11 v15
  let (v0, v5, v10, v15) := G m 1 4 v0 v5 v10 v15
  let (v1, v6, v11, v12) := G m 1 5 v1 v6 v11 v12
  let (v2, v7, v8, v13) := G m 1 6 v2 v7 v8 v13
  let (v3, v4, v9, v14) := G m 1 7 v3 v4 v9 v14
  let (v0, v4, v8, v12) := G m 2 0 v0 v4 v8 v12
  let (v1, v5, v9, v13) := G m 2 1 v1 v5 v9 v13
  let (v2, v6, v10, v14) := G m 2 2 v2 v6 v10 v14
  let (v3, v7, v11, v15) := G m 2 3 v3 v7 v11 v15
  let (v0, v5, v10, v15) := G m 2 4 v0 v5 v10 v15
  let (v1, v6, v11, v12) := G m 2 5 v1 v6 v11 v12
  let (v2, v7, v8, v13) := G m 2 6 v2 v7 v8 v13
  let (v3, v4, v9, v14) := G m 2 7 v3 v4 v9 v14
  let (v0, v4, v8, v12) := G m 3 0 v0 v4 v8 v12
  let (v1, v5, v9, v13) := G m 3 1 v1 v5 v9 v13
  let (v2, v6, v10, v14) := G m 3 2 v2 v6 v10 v14
  let (v3, v7, v11, v15) := G m 3 3 v3 v7 v11 v15
  let (v0, v5, v10, v15) := G m 3 4 v0 v5 v10 v15
  let (v1, v6, v11, v12) := G m 3 5 v1 v6 v11 v12
  let (v2, v7, v8, v13) := G m 3 6 v2 v7 v8 v13
  let (v3, v4, v9, v14) := G m 3 7 v3 v4 v9 v14
  let (v0, v4, v8, v12) := G m 4 0 v0 v4 v8 v12
  let (v1, v5, v9, v13) := G m 4 1 v1 v5 v9 v13
  let (v2, v6, v10, v14) := G m 4 2 v2 v6 v10 v14
  let (v3, v7, v11, v15) := G m 4 3 v3 v7 v11 v15
  let (v0, v5, v10, v15) := G m 4 4 v0 v5 v10 v15
  let (v1, v6, v11, v12) := G m 4 5 v1 v6 v11 v12
  let (v2, v7, v8, v13) := G m 4 6 v2 v7 v8 v13
  let (v3, v4, v9, v14) := G m 4 7 v3 v4 v9 v14
  let (v0, v4, v8, v12) := G m 5 0 v0 v4 v8 v12
  let (v1, v5, v9, v13) := G m 5 1 v1 v5 v9 v13
  let (v2, v6, v10, v14) := G m 5 2 v2 v6 v10 v14
  let (v3, v7, v11, v15) := G m 5 3 v3 v7 v11 v15
  let (v0, v5, v10, v15) := G m 5 4 v0 v5 v10 v15
  let (v1, v6, v11, v12) := G m 5 5 v1 v6 v11 v12
  let (v2, v7, v8, v13) := G m 5 6 v2 v7 v8 v13
  let (v3, v4, v9, v14) := G m 5 7 v3 v4 v9 v14
  let (v0, v4, v8, v12) := G m 6 0 v0 v4 v8 v12
  let (v1, v5, v9, v13) := G m 6 1 v1 v5 v9 v13
  let (v2, v6, v10, v14) := G m 6 2 v2 v6 v10 v14
  let (v3, v7, v11, v15) := G m 6 3 v3 v7 v11 v15
  let (v0, v5, v10, v15) := G m 6 4 v0 v5 v10 v15
  let (v1, v6, v11, v12) := G m 6 5 v1 v6 v11 v12
  let (v2, v7, v8, v13) := G m 6 6 v2 v7 v8 v13
  let (v3, v4, v9, v14) := G m 6 7 v3 v4 v9 v14
  let (v0, v4, v8, v12) := G m 7 0 v0 v4 v8 v12
  let (v1, v5, v9, v13) := G m 7 1 v1 v5 v9 v13
  let (v2, v6, v10, v14) := G m 7 2 v2 v6 v10 v14
  let (v3, v7, v11, v15) := G m 7 3 v3 v7 v11 v15
  let (v0, v5, v10, v15) := G m 7 4 v0 v5 v10 v15
  let (v1, v6, v11, v12) := G m 7 5 v1 v6 v11 v12
  let (v2, v7, v8, v13) := G m 7 6 v2 v7 v8 v13
  let (v3, v4, v9, v14) := G m 7 7 v3 v4 v9 v14
  let (v0, v4, v8, v12) := G m 8 0 v0 v4 v8 v12
  let (v1, v5, v9, v13) := G m 8 1 v1 v5 v9 v13
  let (v2, v6, v10, v14) := G m 8 2 v2 v6 v10 v14
  let (v3, v7, v11, v15) := G m 8 3 v3 v7 v11 v15
  let (v0, v5, v10, v15) := G m 8 4 v0 v5 v10 v15
  let (v1, v6, v11, v12) := G m 8 5 v1 v6 v11 v12
  let (v2, v7, v8, v13) := G m 8 6 v2 v7 v8 v13
  let (v3, v4, v9, v14) := G m 8 7 v3 v4 v9 v14
  let (v0, v4, v8, v12) := G m 9 0 v0 v4 v8 v12
  let (v1, v5, v9, v13) := G m 9 1 v1 v5 v9 v13
  let (v2, v6, v10, v14) := G m 9 2 v2 v6 v10 v14
  let (v3, v7, v11, v15) := G m 9 3 v3 v7 v11 v15
  let (v0, v5, v10, v15) := G m 9 4 v0 v5 v10 v15
  let (v1, v6, v11, v12) := G m 9 5 v1 v6 v11 v12
  let (v2, v7, v8, v13) := G m 9 6 v2 v7 v8 v13
  let (v3, v4, v9, v14) := G m 9 7 v3 v4 v9 v14
  let (v0, v4, v8, v12) := G m 10 0 v0 v4 v8 v12
  let (v1, v5, v9, v13) := G m 10 1 v1 v5 v9 v13
  let (v2, v6, v10, v14) := G m 10 2 v2 v6 v10 v14
  let (v3, v7, v11, v15) := G m 10 3 v3 v7 v11 v15
  let (v0, v5, v10, v15) := G m 10 4 v0 v5 v10 v15
  let (v1, v6, v11, v12) := G m 10 5 v1 v6 v11 v12
  let (v2, v7, v8, v13) := G m 10 6 v2 v7 v8 v13
  let (v3, v4, v9, v14) := G m 10 7 v3 v4 v9 v14
  let (v0, v4, v8, v12) := G m 11 0 v0 v4 v8 v12
  let (v1, v5, v9, v13) := G m 11 1 v1 v5 v9 v13
  let (v2, v6, v10, v14) := G m 11 2 v2 v6 v10 v14
  let (v3, v7, v11, v15) := G m 11 3 v3 v7 v11 v15
  let (v0, v5, v10, v15) := G m 11 4 v0 v5 v10 v15
  let (v1, v6, v11, v12) := G m 11 5 v1 v6 v11 v12
  let (v2, v7, v8, v13) := G m 11 6 v2 v7 v8 v13
  let (v3, v4, v9, v14) := G m 11 7 v3 v4 v9 v14
  [v0, v1, v2, v3, v4, v5, v6, v7, v8, v9, v10, v11, v12, v13, v14, v15]

def blake2b_compress (S : blake2b_state) (block : List Nat) : blake2b_state :=
  let m := (List.range 16).map (fun i => load64 (block.drop (i * 8)))
  let v := (List.range 8).map (fun i => S.h.getD i 0)
  let v := v ++
    [blake2b_IV.getD 0 0, blake2b_IV.getD 1 0, blake2b_IV.getD 2 0, blake2b_IV.getD 3 0,
     blake2b_IV.getD 4 0 ^^^ S.t.1, blake2b_IV.getD 5 0 ^^^ S.t.2,
     blake2b_IV.getD 6 0 ^^^ S.f.1, blake2b_IV.getD 7 0 ^^^ S.f.2]
  let v := compress_rounds m v
  { S with h := (List.range 8).map (fun i => S.h.getD i 0 ^^^ v.getD i 0 ^^^ v.getD (i + 8) 0) }

/-- The loop `while (inlen > BLAKE2B_BLOCKBYTES)` of `blake2b_update`; `pin` is the
input not yet consumed and `inlen` its length. Every iteration consumes 128 bytes,
so `pin.length` iterations always suffice (`blake2b_update_loop_fuel`). -/
def blake2b_update_loop : Nat → blake2b_state → List Nat → blake2b_state × List Nat
  | 0, S, pin => (S, pin)
  | fuel + 1, S, pin =>
    if pin.length > BLAKE2B_BLOCKBYTES then
      let S := blake2b_increment_counter S BLAKE2B_BLOCKBYTES
      let S := blake2b_compress S pin
      blake2b_update_loop fuel S (pin.drop BLAKE2B_BLOCKBYTES)
    else (S, pin)

def blake2b_update (S : blake2b_state) (pin : List Nat) : Option (Int × blake2b_state) :=
  let r : Option (blake2b_state × List Nat) :=
    if S.buflen + pin.length > BLAKE2B_BLOCKBYTES then
      let left := S.buflen
      let fill := (BLAKE2B_BLOCKBYTES + 2 ^ 64 - left) % 2 ^ 64
      match memcpy S.buf left pin fill with
      | none => none
      | some buf =>
        let S := { S with buf := buf }
        let S := blake2b_increment_counter S BLAKE2B_BLOCKBYTES
        let S := blake2b_compress S S.buf
        let S := { S with buflen := 0 }
        let pin := pin.drop fill
        some (blake2b_update_loop pin.length S pin)
    else some (S, pin)
  match r with
  | none => none
  | some (S, pin) =>
    match memcpy S.buf S.buflen pin pin.length with
    | none => none
    | some buf =>
      some (0, { S with buf := buf, buflen := (S.buflen + pin.length % 2 ^ 32) % 2 ^ 32 })

/-- The state is never initialised here: the parameter block `P` is filled in and never
read (there is no call of `blake2b_init_param`), so it has no counterpart below, and
`block` is not cleared before the key is copied into it. `S` is the state object as
the caller passed it, `block` the contents of the local array at entry, and `keylen`
is `key.length`. -/
def blake2b_init_key (S : blake2b_state) (block : List Nat) (outlen : Nat) (key : List Nat) :
    Option (Int × blake2b_state) :=
  match memcpy block 0 key key.length with
  | none => none
  | some block =>
    match blake2b_update S block with
    | none => none
    | some (_, S) => some (0, S)

/-- The argument `outlen` is not used: `S->outlen` bytes of the serialised chaining value
are copied to `out`. The third component of the result is the bytes written to `out`. -/
def blake2b_final (S : blake2b_state) (outlen : Nat) :
    Option (Int × blake2b_state × List Nat) :=
  let buffer := List.replicate BLAKE2B_OUTBYTES 0
  let S := blake2b_increment_counter S S.buflen
  let S := blake2b_set_lastblock S
  match memset S.buf S.buflen 0 ((BLAKE2B_BLOCKBYTES + 2 ^ 32 - S.buflen) % 2 ^ 32) with
  | none => none
  | some buf =>
    let S := { S with buf := buf }
    let S := blake2b_compress S S.buf
    let buffer := (List.range 8).foldl
      (fun buffer i => buffer.take (8 * i) ++ store64 (S.h.getD i 0) ++ buffer.drop (8 * i + 8))
      buffer
    if S.outlen ≤ buffer.length then some (0, S, buffer.take S.outlen) else none

/-- The function reaches its closing brace without a `return` statement (`ret` is
initialised to `-1` and never used), so the value the caller receives is
indeterminate: it is the parameter `ret`. `key`/`keylen` are not used. The second
component of the result is the bytes written to `out`. -/
def blake2b (ret : Int) (outlen : Nat) (pin : List Nat) (key : List Nat) :
    Option (Int × List Nat) :=
  let S := (blake2b_init outlen).2
  match blake2b_update S pin with
  | none => none
  | some (_, S) =>
    match blake2b_final S outlen with
    | none => none
    | some (_, _, out) => some (ret, out)

/-- The loop `while (toproduce > BLAKE2B_OUTBYTES)` of `blake2b_long`. The loop state is
`(ret, out, out_buffer, toproduce, k)`: the status, the bytes written through `out`
so far, the local buffer, the counter and the number of calls of `blake2b` made so
far; `rets k` is the indeterminate value call number `k` of `blake2b` hands back.
A negative `ret` is the `goto fail` of `TRY`. Every iteration takes 32 off
`toproduce`, so `toproduce` iterations always suffice. -/
def blake2b_long_loop (rets : Nat → Int) :
    Nat → Int × List Nat × List Nat × Nat × Nat → Option (Int × List Nat × List Nat × Nat × Nat)
  | 0, st => some st
  | fuel + 1, (ret, out, out_buffer, toproduce, k) =>
    if toproduce > BLAKE2B_OUTBYTES then
      match memcpy (List.replicate BLAKE2B_OUTBYTES 0) 0 out_buffer BLAKE2B_OUTBYTES with
      | none => none
      | some in_buffer =>
        match blake2b (rets k) BLAKE2B_OUTBYTES in_buffer [] with
        | none => none
        | some (ret, w) =>
          match memcpy out_buffer 0 w w.length with
          | none => none
          | some out_buffer =>
            if ret < 0 then some (ret, out, out_buffer, toproduce, k + 1)
            else
              blake2b_long_loop rets fuel
                (ret, out ++ out_buffer.take (BLAKE2B_OUTBYTES / 2), out_buffer,
                  (toproduce + 2 ^ 32 - BLAKE2B_OUTBYTES / 2) % 2 ^ 32, k + 1)
    else some (ret, out, out_buffer, toproduce, k)

/-- The result is the returned status and the bytes written through `pout` (fewer than
`outlen` when a `TRY` jumped to `fail`). `rets k` is the indeterminate value that call
number `k` of `blake2b` hands back. -/
def blake2b_long (rets : Nat → Int) (outlen : Nat) (pin : List Nat) : Option (Int × List Nat) :=
  let outlen_bytes := store32 (outlen % 2 ^ 32)
  if outlen ≤ BLAKE2B_OUTBYTES then
    let r := blake2b_init outlen
    if r.1 < 0 then some (r.1, []) else
    match blake2b_update r.2 outlen_bytes with
    | none => none
    | some (ret, S) =>
    if ret < 0 then some (ret, []) else
    match blake2b_update S pin with
    | none => none
    | some (ret, S) =>
    if ret < 0 then some (ret, []) else
    match blake2b_final S outlen with
    | none => none
    | some (ret, _, out) => some (ret, out)
  else
    let r := blake2b_init BLAKE2B_OUTBYTES
    if r.1 < 0 then some (r.1, []) else
    match blake2b_update r.2 outlen_bytes with
    | none => none
    | some (ret, S) =>
    if ret < 0 then some (ret, []) else
    match blake2b_update S pin with
    | none => none
    | some (ret, S) =>
    if ret < 0 then some (ret, []) else
    match blake2b_final S BLAKE2B_OUTBYTES with
    | none => none
    | some (ret, _, out_buffer) =>
    if ret < 0 then some (ret, []) else
    let out := out_buffer.take (BLAKE2B_OUTBYTES / 2)
    let toproduce := (outlen % 2 ^ 32 + 2 ^ 32 - BLAKE2B_OUTBYTES / 2) % 2 ^ 32
    match blake2b_long_loop rets toproduce (ret, out, out_buffer, toproduce, 0) with
    | none => none
    | some (ret, out, out_buffer, toproduce, k) =>
    if ret < 0 then some (ret, out) else
    match memcpy (List.replicate BLAKE2B_OUTBYTES 0) 0 out_buffer BLAKE2B_OUTBYTES with
    | none => none
    | some in_buffer =>
    match blake2b (rets k) toproduce in_buffer [] with
    | none => none
    | some (ret, w) =>
    match memcpy out_buffer 0 w w.length with
    | none => none
    | some out_buffer =>
    if ret < 0 then some (ret, out) else
    match memcpy (List.replicate toproduce 0) 0 out_buffer toproduce with
    | none => none
    | some last => some (ret, out ++ last)

/-! ## Reference data and statement helpers -/

/-- The bytes of a digest of `len` bytes written as one hexadecimal number, first byte
in the most significant position (the way digests are printed). -/
def hex_bytes (len : Nat) (x : Nat) : List Nat :=
  (List.range len).map (fun i => x / 256 ^ (len - 1 - i) % 256)

/-- The published BLAKE2b-512 digest of the three bytes `abc` (RFC 7693, appendix A). -/
def blake2b_abc_kat : List Nat :=
  hex_bytes 64 0xba80a53f981c4d0d6a2797b69f12f6e94c212f14685ac4b74b12bb6fdbffa2d17d87c5392aab792dc252d5de4533cc9518d38aa8dbf1925ab92386edd4009923

/-- The published BLAKE2b-512 digest of the empty message. -/
def blake2b_empty_kat_64 : List Nat :=
  hex_bytes 64 0x786a02f742015903c6c6fd852552d272912f4740e15847618a86e217f71f5419d25e1031afee585313896444934eb04b903a685b1448b755d56f701afe9be2ce

/-- The BLAKE2b-`n` digests of the empty message for `n = 1, ..., 64` (entry `n - 1` is
the digest of `n` bytes), as computed by the reference implementation of RFC 7693. -/
def blake2b_empty_kat_table : List Nat :=
  [
   0x2e,
   0xb1fe,
   0xcec7ea,
   0x1271cf25,
   0x7d64c5272e,
   0xddd9c40767f9,
   0x4e9b03474eda9a,
   0xe4a6a0577479b2b4,
   0xd6bd6fc9a3324e5f32,
   0x6fa1d8fcfd719046d762,
   0xeb6ec15daf9546254f0809,
   0xb8e1dda3ac0aa3820ad2990b,
   0x50b4dc6f148a3f25b974e5c829,
   0x4b1f3c22056a5cf9a3300407d264,
   0xb7db87196c483405e40f8401fa1fc9,
   0xcae66941d9efbd404e4d88758ea67670,
   0x246c0442cd564aced8145b8b60f1370aa7,
   0x91a1a481a82eb3f3e6262de11f142d234945,
   0x35bd4214446fda5ce2e05015f1ba43e26f1b96,
   0x3345524abf6bbe1809449224b5972c41790b6cf2,
   0x077d8272052a6edfff4047461c3a2b3d9d330dbbf0,
   0x1065c75a5ab372acff0b521808a4766c70b12b10ad8c,
   0xe30b37bb45ad2f1954a0ab31666f909df8d4eabd6933e9,
   0xab3b5331a7135ed50d0f182d026e60abdb3646fd51bcf8a3,
   0x94165bbe7a8a0f49fad8c1b39c40b7dd613409378dcc47681f,
   0x7895f50fee886d460f321601da8d2db483a08c0264cd8ff3617e,
   0xb41793f77a58236ee36d36570bcd14cf00ba6a443c6c5bd4bb9eaf,
   0x836cc68931c2e4e3e838602eca1902591d216837bafddfe6f0c8cb07,
   0xa10eae68c06d70c597699d656d6ae213430569f9c62e04cd2fc3a0c1bf,
   0xa5d6d5975d09c76462b3f9c74f9568d9f9fd46dfbdcbf3f14bc835298b22,
   0xb4d7d8f500d546e71fe03f080b6bfefd567a0aa97e84bdb2cf8b15d1867c00,
   0x0e5751c026e543b2e8ab2eb06099daa1d1e5df47778f7787faab45cdf12fe3a8,
   0xddca500c4d28f7f2816de1574f840e4878c1c5aa30c149745e0149273b214c359d,
   0x90933ab63c7665e2bd6431e496ec60d38839fbec78e33aae2c152c073f64264bdab9,
   0x148833bb2bfcc18b9e90024eaeecc0a96027a777761e0b9c93d6642937bb4b8705e218,
   0x92f3592c601fe36aa32c62e305f965905a2982dee6a45c09011ddf05f9cf9b7b5609414f,
   0x6d82c523a958c2b00e42701be980963438d5f40572c70d3d723c03ddebdb74575866f3adbb,
   0xdc5abbc8c533139ba5873c9562868914e501b13aadc59c143d1bfe97cbcb5fab5b65ed488158,
   0x61a54c550005791e4726043fbfc347bb8952e520818157aeaf0d0f877c51950e06ff3157d02a6f,
   0x2e316d2c76c9760df1e604e4ffd1aa5ac6c6ac50aaa8071f7313ea931e205da084bbae9a2019f6aa,
   0x592c90e91f3187c352649476b86bba76c128433e6f3ac8c75710042f4b310e1c7aea39b0aff9b51bd3,
   0xf564703984efb278dfb04536d0bf4b86a17e8a9847104f773b81835ffc60b343a364e224e36552728dd6,
   0x5112353efd2617941caf7de611f152ac7b6fbacfb682aa43ecb707c8977ae8f307e50da1942c6eed777082,
   0xb2e01f2639b7e74abab0bb7e88f7ab7ae94ba6292c3a42537ca288635259a50edd9c7d7a1c7b8d2e2f86848e,
   0xfa9d9e37d6fe09eb8116510fadb9c61cc59e332d46cc4a365e72edc733188f08be9c0894b6dbb06023ff312506,
   0xd47deb78c6d8db06e3b38d8faa368d22cbab03cbfb2b3ad201be5729ab454278007f76dcdb14de4eb38958745f77,
   0xe4ac268b5be19d515b8ddd90bc7e89100f875fa994517409907cb6f3c6eefacc3890c84dd3e91cd2886eb57033c749,
   0xb32811423377f52d7862286ee1a72ee540524380fda1724a6f25d7978c6fd3244a6caf0498812673c5e05ef583825100,
   0xa993b7c6dbd66f7a45487707d7e3eda19201f7fec9dcf1ae3c0a66eb4be4d21ed8af10490cef0c3168e9ff0dcfb5dcd651,
   0x3189e5764c09a2f5d1d9f5cb1967ebd3dfeade9c62af8bb0dc032bb3e90dd1e760fbaba8956f97c7602d0a2ec162169ef219,
   0x31635ed8064b99e056ed7009905673c986944a718c6e5935e7eeb67652550d56fe7ec110a383ef94ef7977be456a44503434ad,
   0xf4e2de2be49787b13e0b38c0d02578b78a76f6c8fc48948c00f67812bd6c9ceaff17b04617532862be3cb251524b93d83a266e35,
   0xe3af5d079bce8fbbad6f5047d77025b8e100d91ecc066fa525d290ef6a867f93b2798769067f8790df954682011617a68d7169ef15,
   0x0668149330f455fe58c70d209cff452742cc1125eee5e1d67af18e9b2a67b5ca6973940135341c2807c9237295ec0a0d173dbc28f687,
   0x89c4f154fddb635864729c086c40ff2e574ef4fa1ab592d9bee584693852cfeee57c743b9a8771443e522f454218b260838c0a913d29e5,
   0xe7d2cb731e704ab61a3fa0ddd3bb3a6bfe3c3bc03b2c80a7545a0c9cedb575dfaa6821be9879e9ecd24350297f14470ad3d1cd2d19f27fbf,
   0xa6e2604d330fa35f9f97cb89a4160928704e058f1aa0badc51b6e16afa943362fc1b32a4d79138b8103dfcad3239de59c17a267e72f7a0693e,
   0xf3cc91641a39f6acada71544227505ae109b8c86c2f5fc3c4b7265c64ca6e99967824cea78f6ffb9a0851c86aa52b28ba3352164eedfefc80ddd,
   0xcf1335ff92a6710c3cfa3dd8ac8c7a435aece775997bdaa1ac57276b0fa16b9a5f1f78a334eefafd0bc9d9cafa6633ba7abed8f67ce8d287af1822,
   0x22f194f655ea58d7fefe35b09c91c91cf5e1a4047181ea7cd7674e597be65f6541fa1fdddf404e7851b1d471478048d550546d14d88345fb422c19f6,
   0xd10c86444347b9bbb839717bc3161a10412c52fd2eb52c0a08fcd4c1f091801c0b2b09c74d716f4874761ec1b11afd66be0e13b129b6bc877720f2c7fd,
   0x50e5578cdbe722b76b9b7d629aec8fb4926b4073da62774e64cafa1b33627c24d70009660e784558b3daa7a65b6841976c41cf3d6891ea1ccdd10894e64d,
   0x4ded8c5fc8b12f3273f877ca585a44ad6503249a2b345d6d9c0e67d85bcb700db4178c0303e93b8f4ad758b8e2c9fd8b3d0c28e585f1928334bb77d36782e8,
   0x786a02f742015903c6c6fd852552d272912f4740e15847618a86e217f71f5419d25e1031afee585313896444934eb04b903a685b1448b755d56f701afe9be2ce
  ]

/-- The published BLAKE2b-`outlen` digest of the empty message, `1 ≤ outlen ≤ 64`. -/
def blake2b_empty_kat (outlen : Nat) : List Nat :=
  hex_bytes outlen (blake2b_empty_kat_table.getD (outlen - 1) 0)

/-- The empty-message check of one digest length: `blake2b_init(outlen)` succeeds and
`blake2b_final` right after it succeeds and writes the published digest. -/
def empty_kat_ok (outlen : Nat) : Prop :=
  (blake2b_init outlen).1 = 0 ∧
  (blake2b_final (blake2b_init outlen).2 outlen).map (fun r => (r.1, r.2.2))
    = some (0, blake2b_empty_kat outlen)

instance empty_kat_ok_decidable (outlen : Nat) : Decidable (empty_kat_ok outlen) := by
  unfold empty_kat_ok
  exact inferInstance

/-! ## Statement helpers -/

/-- A sequence of calls `blake2b_update(S, x1), ..., blake2b_update(S, xk)`, one per
piece, on the same state object. -/
def update_all (S : blake2b_state) : List (List Nat) → Option blake2b_state
  | [] => some S
  | x :: xs =>
    match blake2b_update S x with
    | none => none
    | some (_, S) => update_all S xs

/-- The digest bytes written by `blake2b_init(outlen)`, the updates
`blake2b_update(x1), ..., blake2b_update(xk)` and `blake2b_final`. -/
def hash_pieces (outlen : Nat) (pieces : List (List Nat)) : Option (List Nat) :=
  match update_all (blake2b_init outlen).2 pieces with
  | none => none
  | some S => (blake2b_final S outlen).map (fun r => r.2.2)

/-- The fields of a state other than the staging buffer agree. -/
def SameCore (S T : blake2b_state) : Prop :=
  S.h = T.h ∧ S.t = T.t ∧ S.f = T.f ∧ S.outlen = T.outlen ∧ S.last_node = T.last_node

/-- Absorbing a pending byte string `y`: full blocks are compressed while more than one
block is pending; the result is the state and the bytes left pending. -/
def feed (S : blake2b_state) (y : List Nat) : blake2b_state × List Nat :=
  blake2b_update_loop y.length S y

/-- The state `S` holds the chaining value, counter and flags of `C` and has the bytes
`p` staged in its buffer. -/
def Rep (S C : blake2b_state) (p : List Nat) : Prop :=
  S.buf.length = BLAKE2B_BLOCKBYTES ∧ S.buflen = p.length ∧ p.length ≤ BLAKE2B_BLOCKBYTES ∧
    S.buf.take p.length = p ∧ SameCore S C

/-- The last block `blake2b_final` compresses: the staged bytes padded with zeros to 128
bytes. -/
def final_block (S : blake2b_state) : List Nat :=
  S.buf.take S.buflen ++ List.replicate (BLAKE2B_BLOCKBYTES - S.buflen) 0

/-- The 64-byte string obtained by storing the eight words of a chaining value as
little-endian 64-bit words, in order. -/
def digest_bytes (h : List Nat) : List Nat :=
  store64 (h.getD 0 0) ++ store64 (h.getD 1 0) ++ store64 (h.getD 2 0) ++ store64 (h.getD 3 0)
    ++ store64 (h.getD 4 0) ++ store64 (h.getD 5 0) ++ store64 (h.getD 6 0)
    ++ store64 (h.getD 7 0)

/-- The 128-bit counter `t[0] + 2^64 * t[1]` advanced by `n`, as a pair of 64-bit words. -/
def add128 (t : Nat × Nat) (n : Nat) : Nat × Nat :=
  ((t.1 + 2 ^ 64 * t.2 + n) % 2 ^ 128 % 2 ^ 64, (t.1 + 2 ^ 64 * t.2 + n) % 2 ^ 128 / 2 ^ 64)

/-- The unkeyed BLAKE2b digest of `n mod 256` bytes of the message `x`, computed by
`blake2b_init(n)`, one `blake2b_update(x)` and `blake2b_final`: the function `H_n` of
the long-output construction (`[]` if a call is undefined). -/
def blake2b_digest (n : Nat) (x : List Nat) : List Nat :=
  (hash_pieces n [x]).getD []

/-- The chain of full digests of the long-output construction: `chain V i` is `V` hashed
`i` times with the unkeyed 64-byte digest. -/
def chain (V : List Nat) : Nat → List Nat
  | 0 => V
  | i + 1 => blake2b_digest 64 (chain V i)

/-- The chained-halves reference of `blake2b_long` for `outlen > 64`: with
`V1 = H64(LE32(outlen) || input)`, `V(i+1) = H64(Vi)` and `r = ceil(outlen/32) - 2`, the
output is `first32(V1) || ... || first32(Vr) || H_(outlen - 32r)(Vr)`. -/
def long_ref (outlen : Nat) (pin : List Nat) : List Nat :=
  let V1 := blake2b_digest 64 (store32 outlen ++ pin)
  let r := (outlen + 31) / 32 - 2
  ((List.range r).map (fun i => (chain V1 i).take 32)).flatten
    ++ blake2b_digest (outlen - 32 * r) (chain V1 (r - 1))

/-- The number of iterations of the loop of `blake2b_long` entered with `toproduce = tp`. -/
def long_iters (tp : Nat) : Nat :=
  if tp ≤ 64 then 0 else (tp - 33) / 32

/-- The state the claim about `blake2b_init_key` describes: initialised as `blake2b_init`
does, with `key_length = keylen` in the parameter block, followed by one
`blake2b_update` with the 128-byte block `key || 0^(128 - keylen)`. -/
def init_key_expected (outlen : Nat) (key : List Nat) : Option (Int × blake2b_state) :=
  let P : blake2b_param :=
    { digest_length := outlen % 256, key_length := key.length % 256, fanout := 1, depth := 1,
      leaf_length := 0, node_offset := 0, node_depth := 0, inner_length := 0,
      reserved := List.replicate 14 0, salt := List.replicate 16 0,
      personal := List.replicate 16 0 }
  blake2b_update (blake2b_init_param P).2
    (key ++ List.replicate (BLAKE2B_BLOCKBYTES - key.length) 0)

/-- A state object whose bytes are all zero (never initialised by `blake2b_init`). -/
def zeroed_state : blake2b_state :=
  { h := List.replicate 8 0, t := (0, 0), f := (0, 0),
    buf := List.replicate BLAKE2B_BLOCKBYTES 0, buflen := 0, outlen := 0, last_node := 0 }

/-- The state the specification describes for `blake2b_init(outlen)`: `h[0]` is `IV[0]`
xor `0x01010000 + outlen`, `h[1..7]` are `IV[1..7]`, everything else is zero and the
digest length is `outlen`. -/
def init_state_spec (outlen : Nat) : blake2b_state :=
  { h := [blake2b_IV.getD 0 0 ^^^ (0x01010000 + outlen), blake2b_IV.getD 1 0,
          blake2b_IV.getD 2 0, blake2b_IV.getD 3 0, blake2b_IV.getD 4 0,
          blake2b_IV.getD 5 0, blake2b_IV.getD 6 0, blake2b_IV.getD 7 0],
    t := (0, 0), f := (0, 0), buf := List.replicate 128 0, buflen := 0,
    outlen := outlen, last_node := 0 }


/-- The mixing function `G` of the looped reference compression, on four words and two
message words: `a=a+b+x; d=rotr(d^a,32); c=c+d; b=rotr(b^c,24); a=a+b+y; d=rotr(d^a,16);
c=c+d; b=rotr(b^c,63)`, all modulo `2^64`. -/
def ref_mix (a b c d x y : Nat) : Nat × Nat × Nat × Nat :=
  let a := (a + b + x) % 2 ^ 64
  let d := rotr64 (d ^^^ a) 32
  let c := (c + d) % 2 ^ 64
  let b := rotr64 (b ^^^ c) 24
  let a := (a + b + y) % 2 ^ 64
  let d := rotr64 (d ^^^ a) 16
  let c := (c + d) % 2 ^ 64
  let b := rotr64 (b ^^^ c) 63
  (a, b, c, d)

/-- The index quadruples of the looped reference compression: the four columns, then the
four diagonals. -/
def ref_quads : List (Nat × Nat × Nat × Nat) :=
  [(0, 4, 8, 12), (1, 5, 9, 13), (2, 6, 10, 14), (3, 7, 11, 15),
   (0, 5, 10, 15), (1, 6, 11, 12), (2, 7, 8, 13), (3, 4, 9, 14)]

/-- The `i`-th application of the mixing function in round `r` of the looped reference:
on the words of `v` at the `i`-th quadruple, with `x = m[sigma[r][2i]]` and
`y = m[sigma[r][2i+1]]`. -/
def ref_apply (m : List Nat) (r : Nat) (v : List Nat) (i : Nat) : List Nat :=
  let q := ref_quads.getD i (0, 0, 0, 0)
  let x := m.getD ((blake2b_sigma.getD r []).getD (2 * i) 0) 0
  let y := m.getD ((blake2b_sigma.getD r []).getD (2 * i + 1) 0) 0
  let w := ref_mix (v.getD q.1 0) (v.getD q.2.1 0) (v.getD q.2.2.1 0) (v.getD q.2.2.2 0) x y
  (((v.set q.1 w.1).set q.2.1 w.2.1).set q.2.2.1 w.2.2.1).set q.2.2.2 w.2.2.2

/-- One round of the looped reference: the eight applications `i = 0, ..., 7`. -/
def ref_round (m : List Nat) (v : List Nat) (r : Nat) : List Nat :=
  (List.range 8).foldl (ref_apply m r) v

/-- The looped reference compression the specification describes: `m` is the 16
little-endian 64-bit words of the block, `v = h[0..7] ++ IV[0..3] ++ (IV[4]^t[0],
IV[5]^t[1], IV[6]^f[0], IV[7]^f[1])`, twelve rounds `r = 0, ..., 11`, then
`h[i] = h[i] ^ v[i] ^ v[i+8]`; no other field of the state is touched. -/
def ref_compress (S : blake2b_state) (block : List Nat) : blake2b_state :=
  let m := (List.range 16).map (fun i =>
    ((List.range 8).map (fun k => block.getD (8 * i + k) 0 * 256 ^ k)).sum)
  let v := S.h.take 8 ++ blake2b_IV.take 4 ++
    [blake2b_IV.getD 4 0 ^^^ S.t.1, blake2b_IV.getD 5 0 ^^^ S.t.2,
     blake2b_IV.getD 6 0 ^^^ S.f.1, blake2b_IV.getD 7 0 ^^^ S.f.2]
  let v := (List.range 12).foldl (ref_round m) v
  { S with h := (List.range 8).map (fun i => S.h.getD i 0 ^^^ v.getD i 0 ^^^ v.getD (i + 8) 0) }

/-- A state in the middle of a hash, used as an example for `blake2b_final`: three bytes
`abc` staged in a buffer whose other bytes are stale (`0xAA`), a counter whose low word
wraps when the three bytes are added, the last-node flag set and a 32-byte digest. -/
def final_example_state : blake2b_state :=
  { h := (blake2b_init 32).2.h, t := (2 ^ 64 - 2, 7), f := (0, 0),
    buf := [0x61, 0x62, 0x63] ++ List.replicate 125 0xAA, buflen := 3, outlen := 32,
    last_node := 1 }

/-! ## Compression depends on the chaining value, counter, flags and one block -/

theorem word_at_eq_getD (a : List Nat) (i : Nat) : word_at a i = a.getD i 0 := by
  induction i generalizing a with
  | zero => cases a <;> rfl
  | succ i ih =>
    cases a with
    | nil =>
      rw [word_at, ih]
      simp
    | cons x xs =>
      rw [word_at, ih]
      simp

theorem getD_drop_eq (l : List Nat) (k j : Nat) : (l.drop k).getD j 0 = l.getD (k + j) 0 := by
  simp [List.getD_eq_getElem?_getD, List.getElem?_drop]

theorem getD_take_eq (l : List Nat) (n j : Nat) (h : j < n) :
    (l.take n).getD j 0 = l.getD j 0 := by
  simp [List.getD_eq_getElem?_getD, List.getElem?_take, h]

theorem load64_drop_take (b : List Nat) (n k : Nat) (h : k + 8 ≤ n) :
    load64 ((b.take n).drop k) = load64 (b.drop k) := by
  unfold load64
  simp only [getD_drop_eq]
  rw [getD_take_eq b n (k + 0) (by omega), getD_take_eq b n (k + 1) (by omega),
    getD_take_eq b n (k + 2) (by omega), getD_take_eq b n (k + 3) (by omega),
    getD_take_eq b n (k + 4) (by omega), getD_take_eq b n (k + 5) (by omega),
    getD_take_eq b n (k + 6) (by omega), getD_take_eq b n (k + 7) (by omega)]

theorem compress_take (S : blake2b_state) (b : List Nat) :
    blake2b_compress S (b.take BLAKE2B_BLOCKBYTES) = blake2b_compress S b := by
  have hm : (List.range 16).map (fun i => load64 ((b.take BLAKE2B_BLOCKBYTES).drop (i * 8)))
      = (List.range 16).map (fun i => load64 (b.drop (i * 8))) := by
    apply List.map_congr_left
    intro i hi
    rw [List.mem_range] at hi
    exact load64_drop_take b BLAKE2B_BLOCKBYTES (i * 8) (by unfold BLAKE2B_BLOCKBYTES; omega)
  unfold blake2b_compress
  rw [hm]

theorem compress_congr_block (S : blake2b_state) (b c : List Nat)
    (h : b.take BLAKE2B_BLOCKBYTES = c.take BLAKE2B_BLOCKBYTES) :
    blake2b_compress S b = blake2b_compress S c := by
  rw [← compress_take S b, ← compress_take S c, h]

theorem compress_frame (S : blake2b_state) (b : List Nat) :
    (blake2b_compress S b).t = S.t ∧ (blake2b_compress S b).f = S.f ∧
    (blake2b_compress S b).buf = S.buf ∧ (blake2b_compress S b).buflen = S.buflen ∧
    (blake2b_compress S b).outlen = S.outlen ∧
    (blake2b_compress S b).last_node = S.last_node :=
  ⟨rfl, rfl, rfl, rfl, rfl, rfl⟩

theorem compress_h_congr (S T : blake2b_state) (b : List Nat)
    (hh : S.h = T.h) (ht : S.t = T.t) (hf : S.f = T.f) :
    (blake2b_compress S b).h = (blake2b_compress T b).h := by
  unfold blake2b_compress
  simp only [hh, ht, hf]

/-! ## The block loop of `blake2b_update` -/

theorem increment_counter_frame (S : blake2b_state) (inc : Nat) :
    (blake2b_increment_counter S inc).h = S.h ∧ (blake2b_increment_counter S inc).f = S.f ∧
    (blake2b_increment_counter S inc).buf = S.buf ∧
    (blake2b_increment_counter S inc).buflen = S.buflen ∧
    (blake2b_increment_counter S inc).outlen = S.outlen ∧
    (blake2b_increment_counter S inc).last_node = S.last_node :=
  ⟨rfl, rfl, rfl, rfl, rfl, rfl⟩

theorem SameCore_refl (S : blake2b_state) : SameCore S S :=
  ⟨rfl, rfl, rfl, rfl, rfl⟩

theorem SameCore_step (S T : blake2b_state) (b : List Nat) (h : SameCore S T) :
    SameCore (blake2b_compress (blake2b_increment_counter S BLAKE2B_BLOCKBYTES) b)
      (blake2b_compress (blake2b_increment_counter T BLAKE2B_BLOCKBYTES) b) := by
  obtain ⟨hh, ht, hf, ho, hl⟩ := h
  have ht2 : (blake2b_increment_counter S BLAKE2B_BLOCKBYTES).t
      = (blake2b_increment_counter T BLAKE2B_BLOCKBYTES).t := by
    unfold blake2b_increment_counter
    simp only [ht]
  refine ⟨?_, ?_, ?_, ?_, ?_⟩
  · exact compress_h_congr _ _ b hh ht2 hf
  · exact ht2
  · exact hf
  · exact ho
  · exact hl

/-- More fuel than the number of pending bytes changes nothing: the loop is total. -/
theorem blake2b_update_loop_fuel (n m : Nat) (S : blake2b_state) (pin : List Nat)
    (hn : pin.length ≤ n) (hm : pin.length ≤ m) :
    blake2b_update_loop n S pin = blake2b_update_loop m S pin := by
  induction n generalizing m S pin with
  | zero =>
    have hp : pin = [] := List.eq_nil_of_length_eq_zero (by omega)
    subst hp
    cases m with
    | zero => rfl
    | succ m => simp [blake2b_update_loop, BLAKE2B_BLOCKBYTES]
  | succ n ih =>
    cases m with
    | zero =>
      have hp : pin = [] := List.eq_nil_of_length_eq_zero (by omega)
      subst hp
      simp [blake2b_update_loop, BLAKE2B_BLOCKBYTES]
    | succ m =>
      unfold blake2b_update_loop
      by_cases hc : pin.length > BLAKE2B_BLOCKBYTES
      · simp only [hc, if_true]
        apply ih
        · rw [List.length_drop]; unfold BLAKE2B_BLOCKBYTES at hc ⊢; omega
        · rw [List.length_drop]; unfold BLAKE2B_BLOCKBYTES at hc ⊢; omega
      · simp only [hc, if_false]

theorem feed_short (S : blake2b_state) (y : List Nat) (h : y.length ≤ BLAKE2B_BLOCKBYTES) :
    feed S y = (S, y) := by
  unfold feed
  cases hy : y.length with
  | zero => rfl
  | succ k =>
    unfold blake2b_update_loop
    have hc : ¬ y.length > BLAKE2B_BLOCKBYTES := by omega
    simp only [hc, if_false]

theorem feed_long (S : blake2b_state) (y : List Nat) (h : y.length > BLAKE2B_BLOCKBYTES) :
    feed S y = feed (blake2b_compress (blake2b_increment_counter S BLAKE2B_BLOCKBYTES) y)
      (y.drop BLAKE2B_BLOCKBYTES) := by
  unfold feed
  cases hy : y.length with
  | zero => omega
  | succ k =>
    rw [blake2b_update_loop]
    have hc : y.length > BLAKE2B_BLOCKBYTES := h
    simp only [hc, if_true]
    apply blake2b_update_loop_fuel
    · rw [List.length_drop]; unfold BLAKE2B_BLOCKBYTES at h ⊢; omega
    · exact le_refl _

/-- Absorbing `y ++ z` is absorbing `y` and then what is left of `y` followed by `z`. -/
theorem feed_append (S : blake2b_state) (y z : List Nat) :
    feed S (y ++ z) = feed (feed S y).1 ((feed S y).2 ++ z) := by
  generalize hn : y.length = n
  induction n using Nat.strong_induction_on generalizing S y with
  | _ n ih =>
    by_cases hc : y.length > BLAKE2B_BLOCKBYTES
    · have hc2 : (y ++ z).length > BLAKE2B_BLOCKBYTES := by
        rw [List.length_append]; omega
      rw [feed_long S (y ++ z) hc2, feed_long S y hc]
      have hb : blake2b_compress (blake2b_increment_counter S BLAKE2B_BLOCKBYTES) (y ++ z)
          = blake2b_compress (blake2b_increment_counter S BLAKE2B_BLOCKBYTES) y := by
        apply compress_congr_block
        rw [List.take_append_of_le_length (by omega)]
      have hd : (y ++ z).drop BLAKE2B_BLOCKBYTES = y.drop BLAKE2B_BLOCKBYTES ++ z := by
        rw [List.drop_append_of_le_length (by omega)]
      rw [hb, hd]
      apply ih (y.drop BLAKE2B_BLOCKBYTES).length _ _ _ rfl
      rw [List.length_drop]
      unfold BLAKE2B_BLOCKBYTES at hc ⊢
      omega
    · rw [feed_short S y (by omega)]

theorem feed_rest_le (S : blake2b_state) (y : List Nat) :
    (feed S y).2.length ≤ BLAKE2B_BLOCKBYTES := by
  generalize hn : y.length = n
  induction n using Nat.strong_induction_on generalizing S y with
  | _ n ih =>
    by_cases hc : y.length > BLAKE2B_BLOCKBYTES
    · rw [feed_long S y hc]
      apply ih (y.drop BLAKE2B_BLOCKBYTES).length _ _ _ rfl
      rw [List.length_drop]
      unfold BLAKE2B_BLOCKBYTES at hc ⊢
      omega
    · rw [feed_short S y (by omega)]
      exact Nat.le_of_not_lt hc

theorem feed_congr (S T : blake2b_state) (y : List Nat) (h : SameCore S T) :
    SameCore (feed S y).1 (feed T y).1 ∧ (feed S y).2 = (feed T y).2 := by
  generalize hn : y.length = n
  induction n using Nat.strong_induction_on generalizing S T y with
  | _ n ih =>
    by_cases hc : y.length > BLAKE2B_BLOCKBYTES
    · rw [feed_long S y hc, feed_long T y hc]
      apply ih (y.drop BLAKE2B_BLOCKBYTES).length _ _ _ _ _ rfl
      · rw [List.length_drop]
        unfold BLAKE2B_BLOCKBYTES at hc ⊢
        omega
      · exact SameCore_step S T y h
    · rw [feed_short S y (by omega), feed_short T y (by omega)]
      exact ⟨h, rfl⟩

theorem feed_buf (S : blake2b_state) (y : List Nat) :
    (feed S y).1.buf = S.buf ∧ (feed S y).1.buflen = S.buflen := by
  generalize hn : y.length = n
  induction n using Nat.strong_induction_on generalizing S y with
  | _ n ih =>
    by_cases hc : y.length > BLAKE2B_BLOCKBYTES
    · rw [feed_long S y hc]
      have h := ih (y.drop BLAKE2B_BLOCKBYTES).length (by
        rw [List.length_drop]
        unfold BLAKE2B_BLOCKBYTES at hc ⊢
        omega) (blake2b_compress (blake2b_increment_counter S BLAKE2B_BLOCKBYTES) y)
        (y.drop BLAKE2B_BLOCKBYTES) rfl
      exact h
    · rw [feed_short S y (by omega)]
      exact ⟨rfl, rfl⟩

/-! ## One call of `blake2b_update` -/

theorem memcpy_ok (dst : List Nat) (off : Nat) (src : List Nat) (n : Nat)
    (h1 : off + n ≤ dst.length) (h2 : n ≤ src.length) :
    memcpy dst off src n = some (dst.take off ++ src.take n ++ dst.drop (off + n)) := by
  unfold memcpy
  rw [if_pos ⟨h1, h2⟩]

theorem memset_ok (dst : List Nat) (off c n : Nat) (h1 : off + n ≤ dst.length) :
    memset dst off c n = some (dst.take off ++ List.replicate n c ++ dst.drop (off + n)) := by
  unfold memset
  rw [if_pos h1]

/-- The call without overflow of the staging buffer: the bytes are appended to it. -/
theorem update_rep_short (S C : blake2b_state) (p x : List Nat) (h : Rep S C p)
    (hc : ¬ S.buflen + x.length > BLAKE2B_BLOCKBYTES) :
    ∃ S', blake2b_update S x = some (0, S') ∧ Rep S' C (p ++ x) := by
  obtain ⟨hlen, hbl, hp, htake, hcore⟩ := h
  have hsum : p.length + x.length ≤ 128 := by
    unfold BLAKE2B_BLOCKBYTES at hc; omega
  have hm := memcpy_ok S.buf S.buflen x x.length
    (by rw [hlen]; exact Nat.le_of_not_lt hc) (le_refl _)
  refine ⟨{ S with buf := S.buf.take S.buflen ++ x.take x.length ++ S.buf.drop (S.buflen + x.length),
                   buflen := (S.buflen + x.length % 2 ^ 32) % 2 ^ 32 }, ?_, ?_⟩
  · unfold blake2b_update
    simp only [hc, if_false, hm]
  · have hb : (S.buflen + x.length % 2 ^ 32) % 2 ^ 32 = p.length + x.length := by
      rw [hbl]; omega
    refine ⟨?_, ?_, ?_, ?_, hcore⟩
    · simp only [List.length_append, List.length_take, List.length_drop, hlen, hbl,
        BLAKE2B_BLOCKBYTES]
      omega
    · simp only [hb, List.length_append]
    · simp only [List.length_append, BLAKE2B_BLOCKBYTES]; exact hsum
    · simp only [hbl, htake, List.take_length, List.length_append]
      rw [List.take_append_of_le_length (by simp), List.take_of_length_le (by simp)]

/-- The call that overflows the staging buffer: the buffer is topped up and compressed,
the block loop runs on the rest, and what is left is staged. -/
theorem update_rep_long (S C : blake2b_state) (p x : List Nat) (h : Rep S C p)
    (hc : S.buflen + x.length > BLAKE2B_BLOCKBYTES) :
    ∃ S', blake2b_update S x = some (0, S') ∧
      Rep S' (feed C (p ++ x)).1 (feed C (p ++ x)).2 := by
  obtain ⟨hlen, hbl, hp, htake, hcore⟩ := h
  have hB : BLAKE2B_BLOCKBYTES = 128 := rfl
  have hfill : (BLAKE2B_BLOCKBYTES + 2 ^ 64 - S.buflen) % 2 ^ 64 = 128 - p.length := by
    rw [hbl, hB]; omega
  have hm := memcpy_ok S.buf S.buflen x (128 - p.length)
    (by rw [hlen, hbl, hB]; omega) (by rw [hbl, hB] at hc; omega)
  have hbuf1 : S.buf.take S.buflen ++ x.take (128 - p.length)
      ++ S.buf.drop (S.buflen + (128 - p.length)) = p ++ x.take (128 - p.length) := by
    rw [hbl, htake, List.drop_of_length_le (by rw [hlen, hB]; omega), List.append_nil]
  rw [hbuf1] at hm
  have hbuf1len : (p ++ x.take (128 - p.length)).length = 128 := by
    rw [List.length_append, List.length_take]; rw [hbl, hB] at hc; omega
  have htk : (p ++ x.take (128 - p.length)).take BLAKE2B_BLOCKBYTES
      = (p ++ x).take BLAKE2B_BLOCKBYTES := by
    have h1 : (p ++ x.take (128 - p.length)).take BLAKE2B_BLOCKBYTES
        = p ++ x.take (128 - p.length) :=
      List.take_of_length_le (by rw [hbuf1len, hB])
    have h2 : p.take BLAKE2B_BLOCKBYTES = p := List.take_of_length_le hp
    rw [h1, List.take_append_eq_append_take, h2, hB]
  have hdrop : (p ++ x).drop BLAKE2B_BLOCKBYTES = x.drop (128 - p.length) := by
    rw [List.drop_append_eq_append_drop, List.drop_of_length_le (by rw [hB] at hp; exact hp),
      List.nil_append, hB]
  have hlong : (p ++ x).length > BLAKE2B_BLOCKBYTES := by
    rw [List.length_append, ← hbl]; exact hc
  -- the state after the first block
  have hS4 : SameCore
      { blake2b_compress (blake2b_increment_counter
          { S with buf := p ++ x.take (128 - p.length) } BLAKE2B_BLOCKBYTES)
          (p ++ x.take (128 - p.length)) with buflen := 0 }
      (blake2b_compress (blake2b_increment_counter C BLAKE2B_BLOCKBYTES) (p ++ x)) := by
    rw [compress_congr_block _ _ _ htk]
    exact SameCore_step { S with buf := p ++ x.take (128 - p.length) } C (p ++ x) hcore
  have hfeed := feed_congr _ _ (x.drop (128 - p.length)) hS4
  have hfb := feed_buf
    { blake2b_compress (blake2b_increment_counter
          { S with buf := p ++ x.take (128 - p.length) } BLAKE2B_BLOCKBYTES)
          (p ++ x.take (128 - p.length)) with buflen := 0 } (x.drop (128 - p.length))
  have hrest := feed_rest_le
    { blake2b_compress (blake2b_increment_counter
          { S with buf := p ++ x.take (128 - p.length) } BLAKE2B_BLOCKBYTES)
          (p ++ x.take (128 - p.length)) with buflen := 0 } (x.drop (128 - p.length))
  rw [feed_long C (p ++ x) hlong, hdrop]
  generalize hT : feed
    { blake2b_compress (blake2b_increment_counter
          { S with buf := p ++ x.take (128 - p.length) } BLAKE2B_BLOCKBYTES)
          (p ++ x.take (128 - p.length)) with buflen := 0 } (x.drop (128 - p.length)) = T
    at hfeed hfb hrest
  obtain ⟨T1, rest⟩ := T
  obtain ⟨hfb1, hfb2⟩ := hfb
  have hrest : rest.length ≤ 128 := hrest
  have hfeed : SameCore T1 (feed (blake2b_compress (blake2b_increment_counter C
      BLAKE2B_BLOCKBYTES) (p ++ x)) (x.drop (128 - p.length))).1 ∧
      rest = (feed (blake2b_compress (blake2b_increment_counter C
      BLAKE2B_BLOCKBYTES) (p ++ x)) (x.drop (128 - p.length))).2 := hfeed
  have hbuf5 : T1.buf = p ++ x.take (128 - p.length) := hfb1
  have hbl5 : T1.buflen = 0 := hfb2
  have hm2 := memcpy_ok T1.buf T1.buflen rest rest.length
    (by rw [hbuf5, hbl5, hbuf1len]; omega) (le_refl _)
  refine ⟨{ T1 with buf := T1.buf.take T1.buflen ++ rest.take rest.length
                      ++ T1.buf.drop (T1.buflen + rest.length),
                    buflen := (T1.buflen + rest.length % 2 ^ 32) % 2 ^ 32 }, ?_, ?_⟩
  · unfold blake2b_update
    simp only [hc, if_true, hfill, hm]
    generalize hg : blake2b_update_loop _ _ _ = T2
    have hT2 : T2 = (T1, rest) := by
      rw [← hg]; exact hT
    rw [hT2]
    simp only [hm2]
  · rw [← hfeed.2]
    have hb : (T1.buflen + rest.length % 2 ^ 32) % 2 ^ 32 = rest.length := by
      rw [hbl5]; omega
    refine ⟨?_, ?_, ?_, ?_, hfeed.1⟩
    · simp only [List.length_append, List.length_take, List.length_drop, hbuf5, hbl5,
        hbuf1len, hB]
      omega
    · simp only [hb]
    · exact hrest
    · simp only [hbl5, List.take_zero, List.nil_append, List.take_length, Nat.zero_add]
      rw [List.take_append_of_le_length (le_refl _), List.take_length]

theorem update_rep (S C : blake2b_state) (p x : List Nat) (h : Rep S C p) :
    ∃ S', blake2b_update S x = some (0, S') ∧
      Rep S' (feed C (p ++ x)).1 (feed C (p ++ x)).2 := by
  by_cases hc : S.buflen + x.length > BLAKE2B_BLOCKBYTES
  · exact update_rep_long S C p x h hc
  · obtain ⟨S', h1, h2⟩ := update_rep_short S C p x h hc
    refine ⟨S', h1, ?_⟩
    have hs : (p ++ x).length ≤ BLAKE2B_BLOCKBYTES := by
      rw [List.length_append, ← h.2.1]; exact Nat.le_of_not_lt hc
    rw [feed_short C (p ++ x) hs]
    exact h2

/-! ## `blake2b_final` -/

theorem range8 : List.range 8 = [0, 1, 2, 3, 4, 5, 6, 7] := by decide

theorem final_buffer_eq (h : List Nat) :
    (List.range 8).foldl
      (fun buffer i => buffer.take (8 * i) ++ store64 (h.getD i 0) ++ buffer.drop (8 * i + 8))
      (List.replicate BLAKE2B_OUTBYTES 0) = digest_bytes h := by
  rw [range8]
  simp only [List.foldl, store64, digest_bytes, BLAKE2B_OUTBYTES, List.replicate]
  simp

theorem digest_bytes_length (h : List Nat) : (digest_bytes h).length = 64 := by
  simp [digest_bytes, store64]

/-- What `blake2b_final` computes on a state whose buffer is a 128-byte array holding at
most 128 staged bytes. -/
theorem final_unfold (S : blake2b_state) (o : Nat)
    (hlen : S.buf.length = BLAKE2B_BLOCKBYTES) (hbl : S.buflen ≤ BLAKE2B_BLOCKBYTES) :
    blake2b_final S o =
      if S.outlen ≤ 64 then
        some (0,
          blake2b_compress
            { h := S.h, t := (blake2b_increment_counter S S.buflen).t,
              f := (blake2b_set_lastblock S).f, buf := final_block S, buflen := S.buflen,
              outlen := S.outlen, last_node := S.last_node } (final_block S),
          (digest_bytes (blake2b_compress
            { h := S.h, t := (blake2b_increment_counter S S.buflen).t,
              f := (blake2b_set_lastblock S).f, buf := final_block S, buflen := S.buflen,
              outlen := S.outlen, last_node := S.last_node } (final_block S)).h).take S.outlen)
      else none := by
  have hB : BLAKE2B_BLOCKBYTES = 128 := rfl
  have hn : (BLAKE2B_BLOCKBYTES + 2 ^ 32 - S.buflen) % 2 ^ 32 = BLAKE2B_BLOCKBYTES - S.buflen := by
    rw [hB] at hbl ⊢; omega
  have hset : memset S.buf S.buflen 0 (BLAKE2B_BLOCKBYTES - S.buflen) = some (final_block S) := by
    rw [memset_ok S.buf S.buflen 0 (BLAKE2B_BLOCKBYTES - S.buflen) (by rw [hlen]; omega)]
    unfold final_block
    rw [List.drop_of_length_le (by rw [hlen]; omega), List.append_nil]
  have hset2 : memset (blake2b_set_lastblock (blake2b_increment_counter S S.buflen)).buf
      (blake2b_set_lastblock (blake2b_increment_counter S S.buflen)).buflen 0
      ((BLAKE2B_BLOCKBYTES + 2 ^ 32
        - (blake2b_set_lastblock (blake2b_increment_counter S S.buflen)).buflen) % 2 ^ 32)
      = some (final_block S) := by
    have e1 : (blake2b_set_lastblock (blake2b_increment_counter S S.buflen)).buf = S.buf := by
      unfold blake2b_set_lastblock blake2b_set_lastnode blake2b_increment_counter
      split <;> rfl
    have e2 : (blake2b_set_lastblock (blake2b_increment_counter S S.buflen)).buflen
        = S.buflen := by
      unfold blake2b_set_lastblock blake2b_set_lastnode blake2b_increment_counter
      split <;> rfl
    rw [e1, e2, hn, hset]
  unfold blake2b_final
  simp only [hset2, final_buffer_eq, digest_bytes_length]
  have e3 : (blake2b_set_lastblock (blake2b_increment_counter S S.buflen)).outlen = S.outlen := by
    unfold blake2b_set_lastblock blake2b_set_lastnode blake2b_increment_counter
    split <;> rfl
  have e4 : ({ blake2b_set_lastblock (blake2b_increment_counter S S.buflen) with
      buf := final_block S } : blake2b_state) =
      { h := S.h, t := (blake2b_increment_counter S S.buflen).t,
        f := (blake2b_set_lastblock S).f, buf := final_block S, buflen := S.buflen,
        outlen := S.outlen, last_node := S.last_node } := by
    unfold blake2b_set_lastblock blake2b_set_lastnode blake2b_increment_counter
    split <;> rfl
  rw [e4]
  rfl

/-! ## Chunking invariance (C1) -/

theorem feed_outlen (S : blake2b_state) (y : List Nat) :
    (feed S y).1.outlen = S.outlen := by
  generalize hn : y.length = n
  induction n using Nat.strong_induction_on generalizing S y with
  | _ n ih =>
    by_cases hc : y.length > BLAKE2B_BLOCKBYTES
    · rw [feed_long S y hc]
      exact ih (y.drop BLAKE2B_BLOCKBYTES).length (by
        rw [List.length_drop]
        unfold BLAKE2B_BLOCKBYTES at hc ⊢
        omega) (blake2b_compress (blake2b_increment_counter S BLAKE2B_BLOCKBYTES) y)
        (y.drop BLAKE2B_BLOCKBYTES) rfl
    · rw [feed_short S y (by omega)]

theorem init_status (outlen : Nat) : (blake2b_init outlen).1 = 0 := rfl

theorem init_buf (outlen : Nat) :
    (blake2b_init outlen).2.buf = List.replicate BLAKE2B_BLOCKBYTES 0 := rfl

theorem init_buflen (outlen : Nat) : (blake2b_init outlen).2.buflen = 0 := rfl

theorem init_outlen (outlen : Nat) : (blake2b_init outlen).2.outlen = outlen % 256 := rfl

theorem init_rep (outlen : Nat) :
    Rep (blake2b_init outlen).2 (blake2b_init outlen).2 [] := by
  refine ⟨?_, ?_, ?_, ?_, SameCore_refl _⟩
  · rw [init_buf, List.length_replicate]
  · rw [init_buflen]; rfl
  · simp
  · simp

/-- Any sequence of updates leaves the state that absorbing the concatenation leaves. -/
theorem update_all_rep (pieces : List (List Nat)) (S C : blake2b_state) (p : List Nat)
    (h : Rep S C p) :
    ∃ S', update_all S pieces = some S' ∧
      Rep S' (feed C (p ++ pieces.flatten)).1 (feed C (p ++ pieces.flatten)).2 := by
  induction pieces generalizing S C p with
  | nil =>
    refine ⟨S, rfl, ?_⟩
    rw [List.flatten_nil, List.append_nil, feed_short C p h.2.2.1]
    exact h
  | cons x xs ih =>
    obtain ⟨S1, h1, r1⟩ := update_rep S C p x h
    obtain ⟨S2, h2, r2⟩ := ih S1 _ _ r1
    refine ⟨S2, ?_, ?_⟩
    · unfold update_all
      rw [h1]
      exact h2
    · rw [List.flatten_cons, ← List.append_assoc, feed_append C (p ++ x) xs.flatten]
      exact r2

/-- Two states that stage the same bytes on the same chaining value, counter and flags
are finalised alike. -/
theorem final_rep (S T C : blake2b_state) (p : List Nat) (o o' : Nat)
    (hS : Rep S C p) (hT : Rep T C p) : blake2b_final S o = blake2b_final T o' := by
  obtain ⟨sl, sb, sp, st, sh, stt, sf, so, sn⟩ := hS
  obtain ⟨tl, tb, tp, tt, th, ttt, tf, to2, tn⟩ := hT
  rw [final_unfold S o sl (by rw [sb]; exact sp), final_unfold T o' tl (by rw [tb]; exact tp)]
  have e1 : final_block S = final_block T := by
    unfold final_block
    rw [sb, tb, st, tt]
  have e2 : (blake2b_increment_counter S S.buflen).t
      = (blake2b_increment_counter T T.buflen).t := by
    unfold blake2b_increment_counter
    simp only [stt, ttt, sb, tb]
  have e3 : (blake2b_set_lastblock S).f = (blake2b_set_lastblock T).f := by
    unfold blake2b_set_lastblock blake2b_set_lastnode
    simp only [sn, tn]
    split <;> simp [sf, tf]
  rw [e1, e2, e3, sh, th, so, to2, sn, tn, sb, tb]

/-- C1 (chunking invariance): for every `outlen` in `1..64` and every way of feeding a
byte string as consecutive pieces (empty pieces allowed), `blake2b_init`, the updates
and `blake2b_final` succeed and write the same digest bytes as a single update with
the whole string. -/
theorem blake2b_chunking_invariance (outlen : Nat) (pieces : List (List Nat))
    (h1 : 1 ≤ outlen) (h2 : outlen ≤ 64) :
    (hash_pieces outlen pieces).isSome = true ∧
      hash_pieces outlen pieces = hash_pieces outlen [pieces.flatten] := by
  obtain ⟨S1, e1, r1⟩ := update_all_rep pieces _ _ _ (init_rep outlen)
  obtain ⟨S2, e2, r2⟩ := update_all_rep [pieces.flatten] _ _ _ (init_rep outlen)
  have hj : [pieces.flatten].flatten = pieces.flatten := by simp
  rw [hj] at r2
  have hf := final_rep S1 S2 _ _ outlen outlen r1 r2
  have ho : S1.outlen ≤ 64 := by
    rw [r1.2.2.2.2.2.2.2.1, feed_outlen, init_outlen]
    omega
  have hs := final_unfold S1 outlen r1.1 (by rw [r1.2.1]; exact r1.2.2.1)
  rw [if_pos ho] at hs
  unfold hash_pieces
  rw [e1, e2]
  simp only
  rw [← hf, hs]
  exact ⟨rfl, rfl⟩

theorem blake2b_chunking_invariance_witness :
    (1 ≤ 64 ∧ 64 ≤ 64) ∧
    (hash_pieces 64 [[0x61], [], [0x62, 0x63]]).isSome = true ∧
      hash_pieces 64 [[0x61], [], [0x62, 0x63]]
        = hash_pieces 64 [[[0x61], [], [0x62, 0x63]].flatten] :=
  ⟨by decide, blake2b_chunking_invariance 64 [[0x61], [], [0x62, 0x63]] (by decide) (by decide)⟩

/-! ## Known answers (C2, C3) -/

/-- The digest written by the one-shot hash does not depend on the indeterminate status. -/
theorem blake2b_ret_irrelevant (ret : Int) (outlen : Nat) (pin key : List Nat) :
    blake2b ret outlen pin key = (blake2b 0 outlen pin key).map (fun p => (ret, p.2)) := by
  unfold blake2b
  dsimp only
  cases blake2b_update (blake2b_init outlen).2 pin with
  | none => rfl
  | some r =>
    obtain ⟨s, S⟩ := r
    dsimp only
    cases blake2b_final S outlen with
    | none => rfl
    | some q => rfl

theorem blake2b_abc_eval :
    blake2b 0 64 [0x61, 0x62, 0x63] [] = some (0, blake2b_abc_kat) := by
  decide!

/-- C2: the one-shot unkeyed hash with `outlen = 64` of the three bytes `abc` writes the
published BLAKE2b-512 test vector `ba80a53f...d4009923`, whatever indeterminate status
the call hands back. -/
theorem blake2b_abc_known_answer (ret : Int) :
    blake2b ret 64 [0x61, 0x62, 0x63] [] = some (ret, blake2b_abc_kat) := by
  rw [blake2b_ret_irrelevant, blake2b_abc_eval]
  rfl

theorem empty_kat_1_8 :
    (List.range' 1 8).all (fun n => decide (empty_kat_ok n)) = true := by
  decide!

theorem empty_kat_9_16 :
    (List.range' 9 8).all (fun n => decide (empty_kat_ok n)) = true := by
  decide!

theorem empty_kat_17_24 :
    (List.range' 17 8).all (fun n => decide (empty_kat_ok n)) = true := by
  decide!

theorem empty_kat_25_32 :
    (List.range' 25 8).all (fun n => decide (empty_kat_ok n)) = true := by
  decide!

theorem empty_kat_33_40 :
    (List.range' 33 8).all (fun n => decide (empty_kat_ok n)) = true := by
  decide!

theorem empty_kat_41_48 :
    (List.range' 41 8).all (fun n => decide (empty_kat_ok n)) = true := by
  decide!

theorem empty_kat_49_56 :
    (List.range' 49 8).all (fun n => decide (empty_kat_ok n)) = true := by
  decide!

theorem empty_kat_57_64 :
    (List.range' 57 8).all (fun n => decide (empty_kat_ok n)) = true := by
  decide!

theorem empty_kat_table_64 : blake2b_empty_kat 64 = blake2b_empty_kat_64 := by
  decide!

theorem empty_kat_of_block (a n : Nat)
    (h : (List.range' a 8).all (fun n => decide (empty_kat_ok n)) = true)
    (h1 : a ≤ n) (h2 : n < a + 8) : empty_kat_ok n := by
  rw [List.all_eq_true] at h
  exact of_decide_eq_true (h n (List.mem_range'_1.mpr ⟨h1, h2⟩))

theorem empty_kat_all (n : Nat) (h1 : 1 ≤ n) (h2 : n ≤ 64) : empty_kat_ok n := by
  by_cases c1 : n < 9
  · exact empty_kat_of_block 1 n empty_kat_1_8 h1 c1
  by_cases c2 : n < 17
  · exact empty_kat_of_block 9 n empty_kat_9_16 (by omega) c2
  by_cases c3 : n < 25
  · exact empty_kat_of_block 17 n empty_kat_17_24 (by omega) c3
  by_cases c4 : n < 33
  · exact empty_kat_of_block 25 n empty_kat_25_32 (by omega) c4
  by_cases c5 : n < 41
  · exact empty_kat_of_block 33 n empty_kat_33_40 (by omega) c5
  by_cases c6 : n < 49
  · exact empty_kat_of_block 41 n empty_kat_41_48 (by omega) c6
  by_cases c7 : n < 57
  · exact empty_kat_of_block 49 n empty_kat_49_56 (by omega) c7
  · exact empty_kat_of_block 57 n empty_kat_57_64 (by omega) (by omega)

/-- C3: for every `outlen` in `1..64`, `blake2b_init(outlen)` succeeds and an immediate
`blake2b_final` succeeds and writes the published BLAKE2b-`outlen` digest of the empty
message; for `outlen = 64` that digest is `786a02f7...fe9be2ce`. -/
theorem blake2b_empty_known_answer (outlen : Nat) (h1 : 1 ≤ outlen) (h2 : outlen ≤ 64) :
    (blake2b_init outlen).1 = 0 ∧
    (blake2b_final (blake2b_init outlen).2 outlen).map (fun r => (r.1, r.2.2))
      = some (0, blake2b_empty_kat outlen) ∧
    blake2b_empty_kat 64 = blake2b_empty_kat_64 := by
  have hk : empty_kat_ok outlen := empty_kat_all outlen h1 h2
  exact ⟨hk.1, hk.2, empty_kat_table_64⟩

theorem blake2b_empty_known_answer_witness :
    (1 ≤ 64 ∧ 64 ≤ 64) ∧ (blake2b_init 64).1 = 0 ∧
    (blake2b_final (blake2b_init 64).2 64).map (fun r => (r.1, r.2.2))
      = some (0, blake2b_empty_kat 64) ∧
    blake2b_empty_kat 64 = blake2b_empty_kat_64 :=
  ⟨by decide, blake2b_empty_known_answer 64 (by decide) (by decide)⟩

/-! ## The one-shot hash and the short branch of `blake2b_long` (C5) -/

/-- On a valid digest length the sequence init, one update, final succeeds; its digest
has `outlen mod 256` bytes. -/
theorem hash_one_ok (n : Nat) (x : List Nat) (hn : n % 256 ≤ 64) :
    ∃ S S', blake2b_update (blake2b_init n).2 x = some (0, S) ∧
      blake2b_final S n = some (0, S', blake2b_digest n x) ∧
      (blake2b_digest n x).length = n % 256 := by
  obtain ⟨S1, e1, r1⟩ := update_rep _ _ _ x (init_rep n)
  have ho : S1.outlen = n % 256 := by
    rw [r1.2.2.2.2.2.2.2.1, feed_outlen, init_outlen]
  have hs := final_unfold S1 n r1.1 (by rw [r1.2.1]; exact r1.2.2.1)
  rw [if_pos (by rw [ho]; exact hn)] at hs
  have hd : blake2b_digest n x = (digest_bytes (blake2b_compress
      { h := S1.h, t := (blake2b_increment_counter S1 S1.buflen).t,
        f := (blake2b_set_lastblock S1).f, buf := final_block S1, buflen := S1.buflen,
        outlen := S1.outlen, last_node := S1.last_node } (final_block S1)).h).take S1.outlen := by
    unfold blake2b_digest hash_pieces update_all
    rw [e1]
    simp only [update_all]
    rw [hs]
    rfl
  refine ⟨S1, blake2b_compress
      { h := S1.h, t := (blake2b_increment_counter S1 S1.buflen).t,
        f := (blake2b_set_lastblock S1).f, buf := final_block S1, buflen := S1.buflen,
        outlen := S1.outlen, last_node := S1.last_node } (final_block S1), e1, ?_, ?_⟩
  · rw [hs, hd]
  · rw [hd, List.length_take, digest_bytes_length, ho]
    omega

theorem blake2b_eq_digest (ret : Int) (n : Nat) (x key : List Nat) (hn : n % 256 ≤ 64) :
    blake2b ret n x key = some (ret, blake2b_digest n x) := by
  obtain ⟨S, S', e1, e2, _⟩ := hash_one_ok n x hn
  unfold blake2b
  simp only [e1, e2]

/-- Two updates on a fresh state are one update with the concatenation, up to the bytes
`blake2b_final` reads. -/
theorem update_two (n : Nat) (a b : List Nat) (hn : n % 256 ≤ 64) :
    ∃ S1 S2 S', blake2b_update (blake2b_init n).2 a = some (0, S1) ∧
      blake2b_update S1 b = some (0, S2) ∧
      blake2b_final S2 n = some (0, S', blake2b_digest n (a ++ b)) := by
  obtain ⟨S1, e1, r1⟩ := update_rep _ _ _ a (init_rep n)
  obtain ⟨S2, e2, r2⟩ := update_rep _ _ _ b r1
  obtain ⟨S3, e3, r3⟩ := update_rep _ _ _ (a ++ b) (init_rep n)
  obtain ⟨T, T', f1, f2, _⟩ := hash_one_ok n (a ++ b) hn
  rw [e3] at f1
  have hT : T = S3 := by
    injection f1 with f1
    injection f1 with _ f1
    exact f1.symm
  subst hT
  rw [← feed_append, List.nil_append] at r2
  rw [List.nil_append] at r3
  refine ⟨S1, S2, T', e1, e2, ?_⟩
  rw [final_rep S2 T _ _ n n r2 r3]
  exact f2

/-- C5: for every `outlen` in `1..64` and every input, `blake2b_long` succeeds and
writes the digest that the one-shot unkeyed hash with digest length `outlen` writes for
the single message `LE32(outlen) || input`. -/
theorem blake2b_long_short (rets : Nat → Int) (ret : Int) (outlen : Nat) (pin : List Nat)
    (h1 : 1 ≤ outlen) (h2 : outlen ≤ 64) :
    ∃ d, blake2b_long rets outlen pin = some (0, d) ∧
      blake2b ret outlen (store32 outlen ++ pin) [] = some (ret, d) ∧ d.length = outlen := by
  have hn : outlen % 256 ≤ 64 := by omega
  have hm : outlen % 2 ^ 32 = outlen := by omega
  obtain ⟨S1, S2, S', e1, e2, e3⟩ := update_two outlen (store32 outlen) pin hn
  obtain ⟨_, _, _, _, hl⟩ := hash_one_ok outlen (store32 outlen ++ pin) hn
  refine ⟨blake2b_digest outlen (store32 outlen ++ pin), ?_, ?_, ?_⟩
  · unfold blake2b_long
    have hc : outlen ≤ BLAKE2B_OUTBYTES := h2
    have hz : ¬ ((0 : Int) < 0) := by decide
    rw [if_pos hc, hm]
    dsimp only
    rw [init_status, if_neg hz, e1]
    dsimp only
    rw [if_neg hz, e2]
    dsimp only
    rw [if_neg hz, e3]
  · exact blake2b_eq_digest ret outlen _ [] hn
  · rw [hl]; omega

theorem blake2b_long_short_witness :
    (1 ≤ 16 ∧ 16 ≤ 64) ∧
    ∃ d, blake2b_long (fun _ => 0) 16 [1, 2, 3] = some (0, d) ∧
      blake2b 0 16 (store32 16 ++ [1, 2, 3]) [] = some (0, d) ∧ d.length = 16 :=
  ⟨by decide, blake2b_long_short (fun _ => 0) 0 16 [1, 2, 3] (by decide) (by decide)⟩

/-! ## The long branch of `blake2b_long` (C4) -/

theorem digest_length (n : Nat) (x : List Nat) (hn : n % 256 ≤ 64) :
    (blake2b_digest n x).length = n % 256 := by
  obtain ⟨_, _, _, _, hl⟩ := hash_one_ok n x hn
  exact hl

theorem chain_length (V : List Nat) (hV : V.length = 64) (i : Nat) :
    (chain V i).length = 64 := by
  cases i with
  | zero => exact hV
  | succ i =>
    unfold chain
    rw [digest_length 64 _ (by decide)]

theorem chain_shift (V : List Nat) (i : Nat) :
    chain (blake2b_digest 64 V) i = chain V (i + 1) := by
  induction i with
  | zero => rfl
  | succ i ih =>
    rw [chain, ih]
    rfl

theorem memcpy_full (dst src : List Nat) (n : Nat) (hd : dst.length = n) (hs : src.length = n) :
    memcpy dst 0 src n = some src := by
  rw [memcpy_ok dst 0 src n (by omega) (by omega)]
  rw [List.take_zero, List.nil_append, List.take_of_length_le (by omega),
    List.drop_of_length_le (by omega), List.append_nil]

theorem memcpy_front (dst w : List Nat) (h : w.length ≤ dst.length) :
    memcpy dst 0 w w.length = some (w ++ dst.drop w.length) := by
  rw [memcpy_ok dst 0 w w.length (by omega) (le_refl _)]
  rw [List.take_zero, List.nil_append, List.take_length, Nat.zero_add]

theorem range_succ_map (f : Nat → List Nat) (n : Nat) :
    (List.range (n + 1)).map f = f 0 :: (List.range n).map (fun i => f (i + 1)) := by
  rw [List.range_succ_eq_map, List.map_cons, List.map_map]
  rfl

theorem long_iters_step (tp : Nat) (h : tp > 64) :
    long_iters tp = long_iters (tp - 32) + 1 := by
  unfold long_iters
  split <;> split <;> omega

/-- The loop of `blake2b_long` when no call of `blake2b` hands back a negative value:
it runs `long_iters tp` times, appends the first halves of the next digests of the chain
and leaves the last full digest in `out_buffer`. -/
theorem long_loop_spec (rets : Nat → Int) (hr : ∀ k, 0 ≤ rets k) (fuel : Nat) :
    ∀ (ret : Int) (out V : List Nat) (tp k : Nat), 0 ≤ ret → V.length = 64 → tp ≤ fuel →
      tp < 2 ^ 32 →
      ∃ ret', 0 ≤ ret' ∧ blake2b_long_loop rets fuel (ret, out, V, tp, k) =
        some (ret',
          out ++ ((List.range (long_iters tp)).map (fun i => (chain V (i + 1)).take 32)).flatten,
          chain V (long_iters tp), tp - 32 * long_iters tp, k + long_iters tp) := by
  induction fuel with
  | zero =>
    intro ret out V tp k hret hV hf ht
    have htp : tp = 0 := by omega
    subst htp
    refine ⟨ret, hret, ?_⟩
    simp [blake2b_long_loop, long_iters, chain]
  | succ fuel ih =>
    intro ret out V tp k hret hV hf ht
    by_cases hc : tp > BLAKE2B_OUTBYTES
    · have hB : BLAKE2B_OUTBYTES = 64 := rfl
      have hm1 : memcpy (List.replicate BLAKE2B_OUTBYTES 0) 0 V BLAKE2B_OUTBYTES = some V :=
        memcpy_full _ _ _ (by simp) (by rw [hV, hB])
      have hw : (blake2b_digest 64 V).length = 64 := digest_length 64 V (by decide)
      have hb : blake2b (rets k) BLAKE2B_OUTBYTES V [] = some (rets k, blake2b_digest 64 V) :=
        blake2b_eq_digest (rets k) 64 V [] (by decide)
      have hm2 : memcpy V 0 (blake2b_digest 64 V) (blake2b_digest 64 V).length
          = some (blake2b_digest 64 V) := by
        rw [memcpy_front V _ (by rw [hw, hV]), List.drop_of_length_le (by rw [hw, hV]),
          List.append_nil]
      have hneg : ¬ rets k < 0 := not_lt.mpr (hr k)
      have htp : (tp + 2 ^ 32 - BLAKE2B_OUTBYTES / 2) % 2 ^ 32 = tp - 32 := by
        rw [hB] at hc ⊢; omega
      obtain ⟨ret', hret', hl⟩ := ih (rets k)
        (out ++ (blake2b_digest 64 V).take (BLAKE2B_OUTBYTES / 2)) (blake2b_digest 64 V)
        (tp - 32) (k + 1) (hr k) hw (by omega) (by omega)
      refine ⟨ret', hret', ?_⟩
      rw [blake2b_long_loop, if_pos hc, hm1]
      dsimp only
      rw [hb]
      dsimp only
      rw [hm2]
      dsimp only
      rw [if_neg hneg, htp, hl, long_iters_step tp (by rw [hB] at hc; exact hc)]
      have e1 : (List.range (long_iters (tp - 32) + 1)).map (fun i => (chain V (i + 1)).take 32)
          = (chain V 1).take 32 ::
            (List.range (long_iters (tp - 32))).map
              (fun i => (chain (blake2b_digest 64 V) (i + 1)).take 32) := by
        rw [range_succ_map]
        simp only [chain_shift, Nat.zero_add]
      have e2 : chain V 1 = blake2b_digest 64 V := rfl
      have e3 : tp - 32 - 32 * long_iters (tp - 32) = tp - 32 * (long_iters (tp - 32) + 1) := by
        omega
      have e4 : k + 1 + long_iters (tp - 32) = k + (long_iters (tp - 32) + 1) := by omega
      rw [e1, List.flatten_cons, e2, chain_shift, e3, e4, List.append_assoc]
      rfl
    · refine ⟨ret, hret, ?_⟩
      have hi : long_iters tp = 0 := by
        unfold long_iters
        rw [if_pos (by unfold BLAKE2B_OUTBYTES at hc; omega)]
      rw [blake2b_long_loop, if_neg hc, hi]
      simp [chain]

theorem halves_length (V : List Nat) (hV : V.length = 64) (n : Nat) :
    ((List.range n).map (fun i => (chain V i).take 32)).flatten.length = 32 * n := by
  induction n with
  | zero => rfl
  | succ n ih =>
    rw [List.range_succ, List.map_append, List.flatten_append, List.length_append, ih]
    simp only [List.map_cons, List.map_nil, List.flatten_cons, List.flatten_nil,
      List.append_nil, List.length_take, chain_length V hV n]
    omega

/-- When no call of `blake2b` hands back a negative value, `blake2b_long` with
`64 < outlen < 2^32` returns and writes exactly the `outlen` bytes of the chained-halves
reference. -/
theorem blake2b_long_chained (rets : Nat → Int) (hr : ∀ k, 0 ≤ rets k) (outlen : Nat)
    (pin : List Nat) (h1 : 64 < outlen) (h2 : outlen < 2 ^ 32) :
    ∃ ret, 0 ≤ ret ∧ blake2b_long rets outlen pin = some (ret, long_ref outlen pin) ∧
      (long_ref outlen pin).length = outlen := by
  have hB : BLAKE2B_OUTBYTES = 64 := rfl
  have hm : outlen % 2 ^ 32 = outlen := by omega
  have hz : ¬ ((0 : Int) < 0) := by decide
  obtain ⟨S1, S2, S', e1, e2, e3⟩ := update_two 64 (store32 outlen) pin (by decide)
  have hV : (blake2b_digest 64 (store32 outlen ++ pin)).length = 64 :=
    digest_length 64 _ (by decide)
  generalize hV1 : blake2b_digest 64 (store32 outlen ++ pin) = V1 at e3 hV
  have htp : (outlen + 2 ^ 32 - 64 / 2) % 2 ^ 32 = outlen - 32 := by
    omega
  obtain ⟨ret1, hret1, hl⟩ := long_loop_spec rets hr (outlen - 32) 0
    (V1.take (64 / 2)) V1 (outlen - 32) 0 (le_refl _) hV (le_refl _) (by omega)
  -- the counters after the loop
  have hn : long_iters (outlen - 32) + 1 = (outlen + 31) / 32 - 2 := by
    unfold long_iters
    split <;> omega
  generalize hN : long_iters (outlen - 32) = n at hl hn
  have hlast : outlen - 32 - 32 * n = outlen - 32 * ((outlen + 31) / 32 - 2) := by
    rw [← hn]; omega
  have hrange : 33 ≤ outlen - 32 - 32 * n ∧ outlen - 32 - 32 * n ≤ 64 := by
    rw [← hN]
    unfold long_iters
    split <;> omega
  have hVn : (chain V1 n).length = 64 := chain_length V1 hV n
  have hm1 : memcpy (List.replicate 64 0) 0 (chain V1 n) 64
      = some (chain V1 n) := memcpy_full _ _ _ (by simp) hVn
  have hdl : (blake2b_digest (outlen - 32 - 32 * n) (chain V1 n)).length
      = outlen - 32 - 32 * n := by
    rw [digest_length _ _ (by omega)]; omega
  have hb : blake2b (rets (0 + n)) (outlen - 32 - 32 * n) (chain V1 n) []
      = some (rets (0 + n), blake2b_digest (outlen - 32 - 32 * n) (chain V1 n)) :=
    blake2b_eq_digest _ _ _ [] (by omega)
  have hm2 := memcpy_front (chain V1 n) (blake2b_digest (outlen - 32 - 32 * n) (chain V1 n))
    (by rw [hdl, hVn]; omega)
  have hm3 : memcpy (List.replicate (outlen - 32 - 32 * n) 0) 0
      (blake2b_digest (outlen - 32 - 32 * n) (chain V1 n)
        ++ (chain V1 n).drop (blake2b_digest (outlen - 32 - 32 * n) (chain V1 n)).length)
      (outlen - 32 - 32 * n)
      = some (blake2b_digest (outlen - 32 - 32 * n) (chain V1 n)) := by
    have hd0 : (List.replicate (outlen - 32 - 32 * n) 0).drop (0 + (outlen - 32 - 32 * n)) = [] :=
      List.drop_of_length_le (by simp)
    have ht0 : (blake2b_digest (outlen - 32 - 32 * n) (chain V1 n)
        ++ (chain V1 n).drop (blake2b_digest (outlen - 32 - 32 * n) (chain V1 n)).length).take
          (outlen - 32 - 32 * n) = blake2b_digest (outlen - 32 - 32 * n) (chain V1 n) := by
      rw [List.take_append_of_le_length (by rw [hdl]), List.take_of_length_le (by rw [hdl])]
    rw [memcpy_ok _ _ _ _ (by simp) (by rw [List.length_append, hdl]; omega)]
    rw [List.take_zero, List.nil_append, hd0, List.append_nil, ht0]
  have href : long_ref outlen pin
      = V1.take (64 / 2)
        ++ ((List.range n).map (fun i => (chain V1 (i + 1)).take 32)).flatten
        ++ blake2b_digest (outlen - 32 - 32 * n) (chain V1 n) := by
    have h3 : outlen - 32 * (n + 1) = outlen - 32 - 32 * n := by omega
    unfold long_ref
    dsimp only
    rw [hV1, ← hn, range_succ_map, List.flatten_cons, Nat.add_sub_cancel, h3]
    rfl
  refine ⟨rets (0 + n), hr _, ?_, ?_⟩
  · unfold blake2b_long
    rw [hB, if_neg (by omega), hm]
    dsimp only
    rw [init_status, if_neg hz, e1]
    dsimp only
    rw [if_neg hz, e2]
    dsimp only
    rw [if_neg hz, e3]
    dsimp only
    rw [if_neg hz, htp, hl]
    dsimp only
    rw [if_neg (not_lt.mpr hret1), hm1]
    dsimp only
    rw [hb]
    dsimp only
    rw [hm2]
    dsimp only
    rw [if_neg (not_lt.mpr (hr _)), hm3, href]
  · rw [href, List.length_append, List.length_append, hdl, List.length_take, hV]
    have hh := halves_length (blake2b_digest 64 V1) (digest_length 64 V1 (by decide)) n
    simp only [chain_shift] at hh
    rw [hh]
    omega

/-- Evaluation of `blake2b_long` for `outlen = 65` on the empty input when the calls of
`blake2b` hand back 0: the 65 bytes of the chained-halves construction. -/
theorem blake2b_long_65_eval :
    blake2b_long (fun _ => 0) 65 [] = some (0, hex_bytes 65
      0x8e8b922d272035d878f074418dd8fadac41f5865ae0dc5066383237e85104c776bcad5ae3396429e5048b46920bc0d7ad39ccbf77d99aeca1fe4702407b8603cb0) := by
  decide!

/-- C4 (failing input): `blake2b` reaches its closing brace without a `return`, so the value
`TRY` tests in `blake2b_long` is indeterminate. For `outlen = 65`, empty input, when
that value is negative (here `-1`) `blake2b_long` jumps to `fail` after the first 32
bytes: it returns `-1` having written 32 bytes, not the 65 bytes of the reference. -/
theorem blake2b_long_indeterminate_status :
    blake2b_long (fun _ => -1) 65 [] = some (-1, hex_bytes 32
      0x8e8b922d272035d878f074418dd8fadac41f5865ae0dc5066383237e85104c77) ∧
    (hex_bytes 32 0x8e8b922d272035d878f074418dd8fadac41f5865ae0dc5066383237e85104c77).length
      = 32 := by
  decide!

/-! ## Parameter checks (C6, C7, C8, C9) -/

/-- C6 (counterexample): the claim that `blake2b_init(outlen)` fails exactly when
`outlen = 0` or `outlen > 64` is false: `blake2b_init(0)` returns 0, and
`blake2b_init(300)` returns 0 with the digest length silently truncated to 44. -/
theorem blake2b_init_no_validation :
    ¬ (∀ outlen : Nat, (blake2b_init outlen).1 < 0 ↔ (outlen = 0 ∨ 64 < outlen)) ∧
    (blake2b_init 0).1 = 0 ∧ (blake2b_init 300).1 = 0 ∧ (blake2b_init 300).2.outlen = 44 := by
  refine ⟨?_, rfl, rfl, rfl⟩
  intro h
  have h0 := (h 0).mpr (Or.inl rfl)
  rw [init_status] at h0
  exact absurd h0 (by decide)

/-- C6 (amended): `blake2b_init` and `blake2b_init_param` never fail: for every `outlen`
the status is 0 and the state records the digest length `outlen mod 256`, which is
`outlen` itself for `outlen` in `1..64`. -/
theorem blake2b_init_always_succeeds (outlen : Nat) (P : blake2b_param) :
    (blake2b_init outlen).1 = 0 ∧ (blake2b_init_param P).1 = 0 ∧
    (blake2b_init outlen).2.outlen = outlen % 256 ∧
    (1 ≤ outlen ∧ outlen ≤ 64 → (blake2b_init outlen).2.outlen = outlen) := by
  refine ⟨rfl, rfl, rfl, ?_⟩
  intro h
  rw [init_outlen]
  omega

/-- C7 (counterexample): a key of 65 bytes is not rejected: `blake2b_init_key` returns 0. -/
theorem blake2b_init_key_accepts_65 :
    (blake2b_init_key (blake2b_init 64).2 (List.replicate 128 0) 64
      (List.replicate 65 1)).map Prod.fst = some 0 := by
  decide!

theorem rep_self (S : blake2b_state) (h1 : S.buf.length = BLAKE2B_BLOCKBYTES)
    (h2 : S.buflen ≤ BLAKE2B_BLOCKBYTES) : Rep S S (S.buf.take S.buflen) := by
  have hl : (S.buf.take S.buflen).length = S.buflen := by
    rw [List.length_take, h1]; omega
  refine ⟨h1, hl.symm, by rw [hl]; exact h2, by rw [hl], SameCore_refl S⟩

/-- C7 (amended): `blake2b_init_key` checks nothing and never returns an error. On a
well-formed state object and a 128-byte `block`, every key of at most 128 bytes
(65..128 included) is copied to the start of `block`, the copy staying inside the
buffer, and the call returns 0; a key longer than 128 bytes is not rejected either:
the `memcpy` runs past the buffer (undefined behaviour, `none`). -/
theorem blake2b_init_key_no_check (S : blake2b_state) (block : List Nat) (outlen : Nat)
    (key : List Nat) (h1 : S.buf.length = BLAKE2B_BLOCKBYTES)
    (h2 : S.buflen ≤ BLAKE2B_BLOCKBYTES) (h3 : block.length = BLAKE2B_BLOCKBYTES) :
    (key.length ≤ BLAKE2B_BLOCKBYTES →
      memcpy block 0 key key.length = some (key ++ block.drop key.length) ∧
      (key ++ block.drop key.length).length = BLAKE2B_BLOCKBYTES ∧
      ∃ S', blake2b_init_key S block outlen key = some (0, S')) ∧
    (BLAKE2B_BLOCKBYTES < key.length → blake2b_init_key S block outlen key = none) := by
  constructor
  · intro hk
    have hm := memcpy_front block key (by rw [h3]; exact hk)
    obtain ⟨S', e, _⟩ := update_rep S S _ (key ++ block.drop key.length) (rep_self S h1 h2)
    refine ⟨hm, ?_, S', ?_⟩
    · rw [List.length_append, List.length_drop, h3]; omega
    · unfold blake2b_init_key
      rw [hm]
      dsimp only
      rw [e]
  · intro hk
    unfold blake2b_init_key memcpy
    rw [if_neg (by rw [h3]; omega)]

theorem blake2b_init_key_no_check_witness :
    ((blake2b_init 64).2.buf.length = BLAKE2B_BLOCKBYTES ∧
      (blake2b_init 64).2.buflen ≤ BLAKE2B_BLOCKBYTES ∧
      (List.replicate 128 0).length = BLAKE2B_BLOCKBYTES) ∧
    (((List.replicate 65 1).length ≤ BLAKE2B_BLOCKBYTES →
      memcpy (List.replicate 128 0) 0 (List.replicate 65 1) (List.replicate 65 1).length
        = some (List.replicate 65 1 ++ (List.replicate 128 0).drop (List.replicate 65 1).length) ∧
      (List.replicate 65 1 ++ (List.replicate 128 0).drop (List.replicate 65 1).length).length
        = BLAKE2B_BLOCKBYTES ∧
      ∃ S', blake2b_init_key (blake2b_init 64).2 (List.replicate 128 0) 64
        (List.replicate 65 1) = some (0, S')) ∧
    (BLAKE2B_BLOCKBYTES < (List.replicate 65 1).length →
      blake2b_init_key (blake2b_init 64).2 (List.replicate 128 0) 64
        (List.replicate 65 1) = none)) :=
  ⟨⟨by decide!, by decide!, by decide!⟩,
    blake2b_init_key_no_check (blake2b_init 64).2 (List.replicate 128 0) 64
      (List.replicate 65 1) (by decide!) (by decide!) (by decide!)⟩

/-- C8 (failing input): `blake2b_init_key` never initialises the state and never clears
`block`. On an all-zero state object, a local array holding stale bytes `0xAA`,
`outlen = 64` and the one-byte key `01`, the state it leaves is not the state of
`blake2b_init` with `key_length = 1` followed by one update with `01 || 0^127`; it
changes with the stale bytes of `block` and with the previous contents of the state. -/
theorem blake2b_init_key_uninitialised :
    blake2b_init_key zeroed_state (List.replicate 128 0xAA) 64 [1] ≠ init_key_expected 64 [1] ∧
    blake2b_init_key zeroed_state (List.replicate 128 0xAA) 64 [1]
      ≠ blake2b_init_key zeroed_state (List.replicate 128 0) 64 [1] ∧
    blake2b_init_key zeroed_state (List.replicate 128 0) 64 [1]
      ≠ blake2b_init_key (blake2b_init 32).2 (List.replicate 128 0) 64 [1] ∧
    (blake2b_init_key zeroed_state (List.replicate 128 0xAA) 64 [1]).map (fun r => r.2.outlen)
      = some 0 := by
  decide!

/-- C9 (counterexample): the status does not follow the validity of `outlen`. With the
invalid `outlen = 0` init, update and final run, nothing is written, and when the
indeterminate value handed back is 0 the caller sees success; with the valid
`outlen = 64` the digest is written and when that value is `-1` the caller sees an
error. -/
theorem blake2b_invalid_outlen_no_error :
    blake2b 0 0 [] [] = some (0, []) ∧
    blake2b (-1) 64 [] [] = some (-1, blake2b_empty_kat_64) := by
  decide!

/-- C9 (amended): the one-shot hash checks nothing and raises no error of its own: for
every `outlen` with `outlen mod 256 ≤ 64`, valid or not (0 and 256 included), init,
update and final all run with status 0, `outlen mod 256` digest bytes are written, and
the value handed back is the indeterminate `ret`, whatever `outlen` is. -/
theorem blake2b_no_error_path (ret : Int) (outlen : Nat) (pin key : List Nat)
    (h : outlen % 256 ≤ 64) :
    (blake2b_init outlen).1 = 0 ∧
    (∃ S S', blake2b_update (blake2b_init outlen).2 pin = some (0, S) ∧
      blake2b_final S outlen = some (0, S', blake2b_digest outlen pin)) ∧
    blake2b ret outlen pin key = some (ret, blake2b_digest outlen pin) ∧
    (blake2b_digest outlen pin).length = outlen % 256 := by
  obtain ⟨S, S', e1, e2, hl⟩ := hash_one_ok outlen pin h
  exact ⟨rfl, ⟨S, S', e1, e2⟩, blake2b_eq_digest ret outlen pin key h, hl⟩

theorem blake2b_no_error_path_witness :
    (256 % 256 ≤ 64) ∧
    ((blake2b_init 256).1 = 0 ∧
    (∃ S S', blake2b_update (blake2b_init 256).2 [0x61] = some (0, S) ∧
      blake2b_final S 256 = some (0, S', blake2b_digest 256 [0x61])) ∧
    blake2b (-1) 256 [0x61] [] = some (-1, blake2b_digest 256 [0x61]) ∧
    (blake2b_digest 256 [0x61]).length = 256 % 256) :=
  ⟨by decide, blake2b_no_error_path (-1) 256 [0x61] [] (by decide)⟩

/-! ## What `blake2b_final` computes (C10) -/

theorem increment_counter_add128 (S : blake2b_state) (inc : Nat)
    (h0 : S.t.1 < 2 ^ 64) (h1 : S.t.2 < 2 ^ 64) (hi : inc < 2 ^ 64) :
    (blake2b_increment_counter S inc).t = add128 S.t inc := by
  unfold blake2b_increment_counter add128
  apply Prod.ext
  · dsimp only
    omega
  · dsimp only
    split <;> omega

theorem set_lastblock_f (S : blake2b_state) :
    (blake2b_set_lastblock S).f
      = (2 ^ 64 - 1, if S.last_node ≠ 0 then 2 ^ 64 - 1 else S.f.2) := by
  unfold blake2b_set_lastblock blake2b_set_lastnode
  split <;> rfl

theorem final_block_length (S : blake2b_state) (hbuf : S.buf.length = BLAKE2B_BLOCKBYTES)
    (hbl : S.buflen ≤ BLAKE2B_BLOCKBYTES) : (final_block S).length = BLAKE2B_BLOCKBYTES := by
  unfold final_block
  rw [List.length_append, List.length_take, List.length_replicate, hbuf]
  omega

/-- C10 (counterexample): `blake2b_init(200)` returns 0 and leaves a state with
`buflen = 0 ≤ 128`, a 128-byte `buf`, a zero counter and `outlen = 200`; on that state
`blake2b_final` copies 200 bytes out of the 64-byte `buffer`, past its end: no output
is defined, so the output is not the first `S.outlen` bytes of the 64-byte
serialisation of the chaining value. -/
theorem blake2b_final_overreads_buffer :
    (blake2b_init 200).1 = 0 ∧ (blake2b_init 200).2.buflen ≤ 128 ∧
    (blake2b_init 200).2.buf.length = 128 ∧ (blake2b_init 200).2.t = (0, 0) ∧
    (blake2b_init 200).2.outlen = 200 ∧
    blake2b_final (blake2b_init 200).2 200 = none := by
  decide!

/-- C10 (amended): on every state with `buflen ≤ 128` (a 128-byte `buf` and 64-bit
counter words, as the state type has them), `blake2b_final` is defined exactly when
`S.outlen ≤ 64`. In that case it returns 0; it compresses the 128-byte block
`buf[0..buflen) || 0...0` into the state whose counter is `t + buflen` as a 128-bit
number, whose `f[0]` is all ones and whose `f[1]` is set to all ones exactly when
`last_node` is set (so, `f[1]` not being all ones before, it is all ones afterwards iff
`last_node` is set), and it writes the first `S.outlen` bytes of the 64-byte
little-endian serialisation of the eight words of the new chaining value. When
`S.outlen > 64` the copy of `S.outlen` bytes leaves the 64-byte `buffer` and no output
is defined. -/
theorem blake2b_final_spec (S : blake2b_state) (o : Nat)
    (hbuf : S.buf.length = BLAKE2B_BLOCKBYTES) (hbl : S.buflen ≤ BLAKE2B_BLOCKBYTES)
    (h0 : S.t.1 < 2 ^ 64) (h1 : S.t.2 < 2 ^ 64) :
    blake2b_final S o =
      (if S.outlen ≤ 64 then
        some (0,
          blake2b_compress
            { S with t := add128 S.t S.buflen,
                     f := (2 ^ 64 - 1, if S.last_node ≠ 0 then 2 ^ 64 - 1 else S.f.2),
                     buf := final_block S } (final_block S),
          (digest_bytes (blake2b_compress
            { S with t := add128 S.t S.buflen,
                     f := (2 ^ 64 - 1, if S.last_node ≠ 0 then 2 ^ 64 - 1 else S.f.2),
                     buf := final_block S } (final_block S)).h).take S.outlen)
      else none) ∧
    (final_block S).length = 128 ∧
    (final_block S).take S.buflen = S.buf.take S.buflen ∧
    (final_block S).drop S.buflen = List.replicate (128 - S.buflen) 0 ∧
    (add128 S.t S.buflen).1 + 2 ^ 64 * (add128 S.t S.buflen).2
      = (S.t.1 + 2 ^ 64 * S.t.2 + S.buflen) % 2 ^ 128 ∧
    (S.f.2 ≠ 2 ^ 64 - 1 →
      ((if S.last_node ≠ 0 then 2 ^ 64 - 1 else S.f.2) = 2 ^ 64 - 1 ↔ S.last_node ≠ 0)) ∧
    (digest_bytes (blake2b_compress
          { S with t := add128 S.t S.buflen,
                   f := (2 ^ 64 - 1, if S.last_node ≠ 0 then 2 ^ 64 - 1 else S.f.2),
                   buf := final_block S } (final_block S)).h).length = 64 ∧
    (S.outlen ≤ 64 →
      ((digest_bytes (blake2b_compress
          { S with t := add128 S.t S.buflen,
                   f := (2 ^ 64 - 1, if S.last_node ≠ 0 then 2 ^ 64 - 1 else S.f.2),
                   buf := final_block S } (final_block S)).h).take S.outlen).length
        = S.outlen) := by
  have hB : BLAKE2B_BLOCKBYTES = 128 := rfl
  have hlen : (S.buf.take S.buflen).length = S.buflen := by
    rw [List.length_take, hbuf]; omega
  refine ⟨?_, final_block_length S hbuf hbl, ?_, ?_, ?_, ?_, digest_bytes_length _, ?_⟩
  · rw [final_unfold S o hbuf hbl,
      increment_counter_add128 S S.buflen h0 h1 (by rw [hB] at hbl; omega), set_lastblock_f]
  · unfold final_block
    rw [List.take_append_of_le_length (by rw [hlen]), List.take_of_length_le (by rw [hlen])]
  · unfold final_block
    rw [List.drop_append_of_le_length (by rw [hlen]), List.drop_of_length_le (by rw [hlen]),
      List.nil_append, hB]
  · unfold add128
    dsimp only
    omega
  · intro hf
    by_cases hn : S.last_node ≠ 0
    · rw [if_pos hn]
      exact ⟨fun _ => hn, fun _ => rfl⟩
    · rw [if_neg hn]
      exact ⟨fun h => absurd h hf, fun h => absurd h hn⟩
  · intro hout
    rw [List.length_take, digest_bytes_length]
    omega

/-- Witness for C10: a state in the middle of a hash (three staged bytes before stale
buffer contents, a counter whose low word wraps, the last-node flag set). -/
theorem blake2b_final_spec_witness :
    (final_example_state.buf.length = BLAKE2B_BLOCKBYTES ∧
      final_example_state.buflen ≤ BLAKE2B_BLOCKBYTES ∧
      final_example_state.t.1 < 2 ^ 64 ∧ final_example_state.t.2 < 2 ^ 64) ∧
    (blake2b_final final_example_state 32 =
      (if final_example_state.outlen ≤ 64 then
        some (0,
          blake2b_compress
            { final_example_state with
                t := add128 final_example_state.t final_example_state.buflen,
                f := (2 ^ 64 - 1,
                  if final_example_state.last_node ≠ 0 then 2 ^ 64 - 1
                  else final_example_state.f.2),
                buf := final_block final_example_state } (final_block final_example_state),
          (digest_bytes (blake2b_compress
            { final_example_state with
                t := add128 final_example_state.t final_example_state.buflen,
                f := (2 ^ 64 - 1,
                  if final_example_state.last_node ≠ 0 then 2 ^ 64 - 1
                  else final_example_state.f.2),
                buf := final_block final_example_state }
            (final_block final_example_state)).h).take final_example_state.outlen)
      else none) ∧
    (final_block final_example_state).length = 128 ∧
    (final_block final_example_state).take final_example_state.buflen
      = final_example_state.buf.take final_example_state.buflen ∧
    (final_block final_example_state).drop final_example_state.buflen
      = List.replicate (128 - final_example_state.buflen) 0 ∧
    (add128 final_example_state.t final_example_state.buflen).1
        + 2 ^ 64 * (add128 final_example_state.t final_example_state.buflen).2
      = (final_example_state.t.1 + 2 ^ 64 * final_example_state.t.2
          + final_example_state.buflen) % 2 ^ 128 ∧
    (final_example_state.f.2 ≠ 2 ^ 64 - 1 →
      ((if final_example_state.last_node ≠ 0 then 2 ^ 64 - 1 else final_example_state.f.2)
        = 2 ^ 64 - 1 ↔ final_example_state.last_node ≠ 0)) ∧
    (digest_bytes (blake2b_compress
          { final_example_state with
              t := add128 final_example_state.t final_example_state.buflen,
              f := (2 ^ 64 - 1,
                if final_example_state.last_node ≠ 0 then 2 ^ 64 - 1
                else final_example_state.f.2),
              buf := final_block final_example_state }
          (final_block final_example_state)).h).length = 64 ∧
    (final_example_state.outlen ≤ 64 →
      ((digest_bytes (blake2b_compress
          { final_example_state with
              t := add128 final_example_state.t final_example_state.buflen,
              f := (2 ^ 64 - 1,
                if final_example_state.last_node ≠ 0 then 2 ^ 64 - 1
                else final_example_state.f.2),
              buf := final_block final_example_state }
          (final_block final_example_state)).h).take final_example_state.outlen).length
        = final_example_state.outlen)) :=
  ⟨⟨by decide!, by decide!, by decide!, by decide!⟩,
    blake2b_final_spec final_example_state 32 (by decide!) (by decide!) (by decide!)
      (by decide!)⟩

/-- The example state of the witness evaluated: the counter `(2^64 - 2, 7)` plus the three
staged bytes is `(1, 8)`, both finalisation flags are all ones, the compressed block is
`abc` followed by 125 zero bytes (the stale bytes are cleared), and 32 bytes are
written. -/
theorem final_example_eval :
    add128 final_example_state.t final_example_state.buflen = (1, 8) ∧
    final_block final_example_state = [0x61, 0x62, 0x63] ++ List.replicate 125 0 ∧
    (blake2b_final final_example_state 32).map (fun r => (r.1, r.2.1.t, r.2.1.f, r.2.2.length))
      = some (0, (1, 8), (2 ^ 64 - 1, 2 ^ 64 - 1), 32) := by
  decide!

/-! ## The argument `outlen` of `blake2b_final` (C11) -/

theorem update_all_outlen (n : Nat) (pieces : List (List Nat)) :
    ∃ S, update_all (blake2b_init n).2 pieces = some S ∧
      S.buf.length = BLAKE2B_BLOCKBYTES ∧ S.buflen ≤ BLAKE2B_BLOCKBYTES ∧
      S.outlen = n % 256 := by
  obtain ⟨S, e, r⟩ := update_all_rep pieces _ _ _ (init_rep n)
  refine ⟨S, e, r.1, by rw [r.2.1]; exact r.2.2.1, ?_⟩
  rw [r.2.2.2.2.2.2.2.1, feed_outlen, init_outlen]

/-- C11 (counterexample): after `blake2b_init(64)`, `blake2b_final(S, out, 32)` writes 64
bytes, not the 32 of its argument. -/
theorem blake2b_final_ignores_argument :
    (blake2b_final (blake2b_init 64).2 32).map (fun r => r.2.2.length) = some 64 := by
  decide!

/-- C11 (amended): on a state created by `blake2b_init(n)` with `n` in `1..64` (and
fed by any sequence of updates), `blake2b_final` succeeds and writes exactly `n`
bytes, the digest length recorded at initialisation, whatever argument `outlen` it is
given; the written bytes do not depend on that argument. -/
theorem blake2b_final_writes_state_outlen (n o o' : Nat) (pieces : List (List Nat))
    (h1 : 1 ≤ n) (h2 : n ≤ 64) :
    ∃ S S' d, update_all (blake2b_init n).2 pieces = some S ∧
      blake2b_final S o = some (0, S', d) ∧ d.length = n ∧
      blake2b_final S o' = blake2b_final S o := by
  obtain ⟨S, e, hb, hl, ho⟩ := update_all_outlen n pieces
  have hs := final_unfold S o hb hl
  rw [if_pos (by rw [ho]; omega)] at hs
  refine ⟨S, _, _, e, hs, ?_, rfl⟩
  rw [List.length_take, digest_bytes_length, ho]
  omega

theorem blake2b_final_writes_state_outlen_witness :
    (1 ≤ 64 ∧ 64 ≤ 64) ∧
    ∃ S S' d, update_all (blake2b_init 64).2 [[0x61]] = some S ∧
      blake2b_final S 32 = some (0, S', d) ∧ d.length = 64 ∧
      blake2b_final S 7 = blake2b_final S 32 :=
  ⟨by decide, blake2b_final_writes_state_outlen 64 32 7 [[0x61]] (by decide) (by decide)⟩

/-! ## Buffering in `blake2b_update` (C12, C13, C14) -/

theorem update_short_eq (S : blake2b_state) (x : List Nat)
    (hbuf : S.buf.length = BLAKE2B_BLOCKBYTES)
    (h : S.buflen + x.length ≤ BLAKE2B_BLOCKBYTES) :
    blake2b_update S x = some (0,
      { S with buf := S.buf.take S.buflen ++ x ++ S.buf.drop (S.buflen + x.length),
               buflen := S.buflen + x.length }) := by
  have hB : BLAKE2B_BLOCKBYTES = 128 := rfl
  have hc : ¬ S.buflen + x.length > BLAKE2B_BLOCKBYTES := Nat.not_lt.mpr h
  have hm := memcpy_ok S.buf S.buflen x x.length (by rw [hbuf]; exact h) (le_refl _)
  have hb : (S.buflen + x.length % 2 ^ 32) % 2 ^ 32 = S.buflen + x.length := by
    rw [hB] at h; omega
  unfold blake2b_update
  simp only [hc, if_false, hm, hb, List.take_length]

/-- C12: when `S.buflen + len(data) ≤ 128` (exactly 128 included) `blake2b_update`
compresses nothing and sets no flag: it returns 0, leaves `h`, `t`, `f`, `outlen` and
`last_node` as they are, writes the data into `buf` at offset `buflen` and adds
`len(data)` to `buflen`; on a freshly initialised state fed at most 128 bytes the
last-block flag `f[0]` is still zero. -/
theorem blake2b_update_no_eager_compression (S : blake2b_state) (x : List Nat) (n : Nat)
    (hbuf : S.buf.length = BLAKE2B_BLOCKBYTES)
    (h : S.buflen + x.length ≤ BLAKE2B_BLOCKBYTES) :
    blake2b_update S x = some (0,
      { h := S.h, t := S.t, f := S.f,
        buf := S.buf.take S.buflen ++ x ++ S.buf.drop (S.buflen + x.length),
        buflen := S.buflen + x.length, outlen := S.outlen, last_node := S.last_node }) ∧
    (S.buf.take S.buflen ++ x ++ S.buf.drop (S.buflen + x.length)).length = 128 ∧
    (x.length ≤ BLAKE2B_BLOCKBYTES →
      ∃ S', blake2b_update (blake2b_init n).2 x = some (0, S') ∧ S'.f = (0, 0) ∧
        S'.t = (0, 0) ∧ S'.h = (blake2b_init n).2.h ∧ S'.buflen = x.length ∧
        S'.buf.take x.length = x) := by
  have hB : BLAKE2B_BLOCKBYTES = 128 := rfl
  refine ⟨update_short_eq S x hbuf h, ?_, ?_⟩
  · rw [List.length_append, List.length_append, List.length_take, List.length_drop, hbuf]
    rw [hB] at h ⊢
    omega
  · intro hx
    have e := update_short_eq (blake2b_init n).2 x (by rw [init_buf, List.length_replicate])
      (by rw [init_buflen, Nat.zero_add]; exact hx)
    refine ⟨_, e, rfl, rfl, rfl, ?_, ?_⟩
    · show (blake2b_init n).2.buflen + x.length = x.length
      rw [init_buflen, Nat.zero_add]
    · show ((blake2b_init n).2.buf.take (blake2b_init n).2.buflen ++ x
        ++ (blake2b_init n).2.buf.drop ((blake2b_init n).2.buflen + x.length)).take x.length = x
      rw [init_buflen, List.take_zero, List.nil_append,
        List.take_append_of_le_length (le_refl _), List.take_length]

theorem blake2b_update_no_eager_compression_witness :
    ((blake2b_init 64).2.buf.length = BLAKE2B_BLOCKBYTES ∧
      (blake2b_init 64).2.buflen + (List.replicate 128 7).length ≤ BLAKE2B_BLOCKBYTES) ∧
    (blake2b_update (blake2b_init 64).2 (List.replicate 128 7) = some (0,
      { h := (blake2b_init 64).2.h, t := (blake2b_init 64).2.t, f := (blake2b_init 64).2.f,
        buf := (blake2b_init 64).2.buf.take (blake2b_init 64).2.buflen ++ List.replicate 128 7
          ++ (blake2b_init 64).2.buf.drop
            ((blake2b_init 64).2.buflen + (List.replicate 128 7).length),
        buflen := (blake2b_init 64).2.buflen + (List.replicate 128 7).length,
        outlen := (blake2b_init 64).2.outlen, last_node := (blake2b_init 64).2.last_node }) ∧
    ((blake2b_init 64).2.buf.take (blake2b_init 64).2.buflen ++ List.replicate 128 7
      ++ (blake2b_init 64).2.buf.drop
        ((blake2b_init 64).2.buflen + (List.replicate 128 7).length)).length = 128 ∧
    ((List.replicate 128 7).length ≤ BLAKE2B_BLOCKBYTES →
      ∃ S', blake2b_update (blake2b_init 64).2 (List.replicate 128 7) = some (0, S') ∧
        S'.f = (0, 0) ∧ S'.t = (0, 0) ∧ S'.h = (blake2b_init 64).2.h ∧
        S'.buflen = (List.replicate 128 7).length ∧
        S'.buf.take (List.replicate 128 7).length = List.replicate 128 7)) :=
  ⟨⟨by decide!, by decide!⟩,
    blake2b_update_no_eager_compression (blake2b_init 64).2 (List.replicate 128 7) 64
      (by decide!) (by decide!)⟩

theorem feed_rest_length (S : blake2b_state) (y : List Nat) :
    (feed S y).2.length
      = if y.length ≤ 128 then y.length else (y.length - 1) % 128 + 1 := by
  generalize hn : y.length = n
  induction n using Nat.strong_induction_on generalizing S y with
  | _ n ih =>
    by_cases hc : y.length > BLAKE2B_BLOCKBYTES
    · have hB : BLAKE2B_BLOCKBYTES = 128 := rfl
      have hd : (y.drop BLAKE2B_BLOCKBYTES).length = n - 128 := by
        rw [List.length_drop, hn, hB]
      rw [feed_long S y hc, ih (n - 128) (by rw [hB] at hc; omega) _ _ hd]
      rw [hB] at hc
      split <;> split <;> omega
    · have hB : BLAKE2B_BLOCKBYTES = 128 := rfl
      rw [feed_short S y (by omega), if_pos (by rw [hB] at hc; omega)]
      exact hn

/-- One call of `blake2b_update` on a state with a 128-byte buffer holding at most 128
bytes: it returns 0 and leaves between 0 and 128 bytes staged. -/
theorem update_buflen (S : blake2b_state) (x : List Nat)
    (hbuf : S.buf.length = BLAKE2B_BLOCKBYTES) (hbl : S.buflen ≤ BLAKE2B_BLOCKBYTES) :
    ∃ S', blake2b_update S x = some (0, S') ∧ S'.buf.length = BLAKE2B_BLOCKBYTES ∧
      S'.buflen ≤ BLAKE2B_BLOCKBYTES ∧
      S'.buflen = if S.buflen + x.length ≤ 128 then S.buflen + x.length
        else (S.buflen + x.length - 1) % 128 + 1 := by
  obtain ⟨S', e, r⟩ := update_rep S S _ x (rep_self S hbuf hbl)
  have hl : (S.buf.take S.buflen).length = S.buflen := by
    rw [List.length_take, hbuf]; omega
  refine ⟨S', e, r.1, by rw [r.2.1]; exact r.2.2.1, ?_⟩
  rw [r.2.1, feed_rest_length, List.length_append, hl]

/-- C13: `blake2b_init` leaves `buflen = 0` in a 128-byte buffer; on every state with
`buflen ≤ 128` a call of `blake2b_update` is defined (every `memcpy` stays inside the
128-byte `buf`), returns 0 and leaves `buflen ≤ 128`; hence every sequence of updates
after `blake2b_init` is defined and ends in a state with `buflen ≤ 128`. -/
theorem blake2b_buflen_invariant (S : blake2b_state) (x : List Nat) (n : Nat)
    (pieces : List (List Nat)) (hbuf : S.buf.length = BLAKE2B_BLOCKBYTES)
    (hbl : S.buflen ≤ BLAKE2B_BLOCKBYTES) :
    ((blake2b_init n).2.buflen = 0 ∧ (blake2b_init n).2.buf.length = 128) ∧
    (∃ S', blake2b_update S x = some (0, S') ∧ S'.buflen ≤ 128 ∧ S'.buf.length = 128) ∧
    (∃ S', update_all (blake2b_init n).2 pieces = some S' ∧ S'.buflen ≤ 128 ∧
      S'.buf.length = 128) := by
  refine ⟨⟨rfl, by rw [init_buf, List.length_replicate]; rfl⟩, ?_, ?_⟩
  · obtain ⟨S', e, h1, h2, _⟩ := update_buflen S x hbuf hbl
    exact ⟨S', e, h2, h1⟩
  · obtain ⟨S', e, h1, h2, _⟩ := update_all_outlen n pieces
    exact ⟨S', e, h2, h1⟩

theorem blake2b_buflen_invariant_witness :
    ((blake2b_init 64).2.buf.length = BLAKE2B_BLOCKBYTES ∧
      (blake2b_init 64).2.buflen ≤ BLAKE2B_BLOCKBYTES) ∧
    (((blake2b_init 32).2.buflen = 0 ∧ (blake2b_init 32).2.buf.length = 128) ∧
    (∃ S', blake2b_update (blake2b_init 64).2 (List.replicate 300 1) = some (0, S') ∧
      S'.buflen ≤ 128 ∧ S'.buf.length = 128) ∧
    (∃ S', update_all (blake2b_init 32).2 [List.replicate 200 2, [], [3]] = some S' ∧
      S'.buflen ≤ 128 ∧ S'.buf.length = 128)) :=
  ⟨⟨by decide!, by decide!⟩,
    blake2b_buflen_invariant (blake2b_init 64).2 (List.replicate 300 1) 32
      [List.replicate 200 2, [], [3]] (by decide!) (by decide!)⟩

/-- C14 (counterexample): 256 bytes fed into a fresh state take the overflow path and
leave `buflen = 128`, which is not strictly less than 128. -/
theorem blake2b_update_leaves_full_block :
    (blake2b_init 64).2.buflen + (List.replicate 256 0).length > 128 ∧
    (blake2b_update (blake2b_init 64).2 (List.replicate 256 0)).map (fun r => r.2.buflen)
      = some 128 := by
  decide!

/-- C14 (amended): on the overflow path (`buflen ≤ 128`, `buflen + len(data) > 128`) full
blocks are consumed while more than one block is pending; the number of bytes staged
at the end of the call, `buflen` after the call, is
`(buflen + len(data) - 1) mod 128 + 1`: at least 1 and at most 128, a full last block
staying staged. -/
theorem blake2b_update_overflow_rest (S : blake2b_state) (x : List Nat)
    (hbuf : S.buf.length = BLAKE2B_BLOCKBYTES) (hbl : S.buflen ≤ BLAKE2B_BLOCKBYTES)
    (hov : S.buflen + x.length > BLAKE2B_BLOCKBYTES) :
    ∃ S', blake2b_update S x = some (0, S') ∧
      S'.buflen = (S.buflen + x.length - 1) % 128 + 1 ∧ 1 ≤ S'.buflen ∧ S'.buflen ≤ 128 ∧
      (128 ∣ S.buflen + x.length → S'.buflen = 128) := by
  have hB : BLAKE2B_BLOCKBYTES = 128 := rfl
  obtain ⟨S', e, _, _, h⟩ := update_buflen S x hbuf hbl
  rw [if_neg (by rw [hB] at hov; omega)] at h
  refine ⟨S', e, h, by omega, by omega, ?_⟩
  intro hd
  rw [hB] at hov
  omega

theorem blake2b_update_overflow_rest_witness :
    ((blake2b_init 64).2.buf.length = BLAKE2B_BLOCKBYTES ∧
      (blake2b_init 64).2.buflen ≤ BLAKE2B_BLOCKBYTES ∧
      (blake2b_init 64).2.buflen + (List.replicate 256 0).length > BLAKE2B_BLOCKBYTES) ∧
    ∃ S', blake2b_update (blake2b_init 64).2 (List.replicate 256 0) = some (0, S') ∧
      S'.buflen = ((blake2b_init 64).2.buflen + (List.replicate 256 0).length - 1) % 128 + 1 ∧
      1 ≤ S'.buflen ∧ S'.buflen ≤ 128 ∧
      (128 ∣ (blake2b_init 64).2.buflen + (List.replicate 256 0).length → S'.buflen = 128) :=
  ⟨⟨by decide!, by decide!, by decide!⟩,
    blake2b_update_overflow_rest (blake2b_init 64).2 (List.replicate 256 0)
      (by decide!) (by decide!) (by decide!)⟩

/-! ## The byte counter (C15, C18) -/

theorem feed_counter (S : blake2b_state) (y : List Nat) (h1 : S.t.2 = 0)
    (h2 : S.t.1 + y.length < 2 ^ 64) (h3 : 128 ∣ S.t.1) :
    (feed S y).1.t.2 = 0 ∧ (feed S y).1.t.1 + (feed S y).2.length = S.t.1 + y.length ∧
      128 ∣ (feed S y).1.t.1 := by
  generalize hn : y.length = n
  induction n using Nat.strong_induction_on generalizing S y with
  | _ n ih =>
    by_cases hc : y.length > BLAKE2B_BLOCKBYTES
    · have hB : BLAKE2B_BLOCKBYTES = 128 := rfl
      have hd : (y.drop BLAKE2B_BLOCKBYTES).length = n - 128 := by
        rw [List.length_drop, hn, hB]
      have ht : (blake2b_compress (blake2b_increment_counter S BLAKE2B_BLOCKBYTES) y).t
          = (S.t.1 + 128, 0) := by
        rw [(compress_frame _ y).1]
        unfold blake2b_increment_counter
        rw [hB] at hc ⊢
        dsimp only
        rw [h1]
        apply Prod.ext
        · dsimp only; omega
        · dsimp only; split <;> omega
      rw [feed_long S y hc]
      have := ih (n - 128) (by rw [hB] at hc; omega)
        (blake2b_compress (blake2b_increment_counter S BLAKE2B_BLOCKBYTES) y)
        (y.drop BLAKE2B_BLOCKBYTES) (by rw [ht]) (by rw [ht, hd]; dsimp only; rw [hB] at hc; omega)
        (by rw [ht]; dsimp only; omega) hd
      rw [ht] at this
      dsimp only at this
      rw [hB] at hc
      refine ⟨this.1, ?_, this.2.2⟩
      omega
    · rw [feed_short S y (by omega)]
      refine ⟨h1, ?_, h3⟩
      show S.t.1 + y.length = S.t.1 + n
      rw [hn]

/-- C15: after `blake2b_init` and update calls whose data lengths sum to `N < 2^64`, the
128-bit counter `t[0] + 2^64 * t[1]` is a multiple of 128 and counter plus `buflen`
is `N`; `blake2b_final` then compresses the last block with the counter equal to `N`
(the counter of the state it leaves). -/
theorem blake2b_counter_invariant (n o N : Nat) (pieces : List (List Nat))
    (h1 : 1 ≤ n) (h2 : n ≤ 64) (hsum : (pieces.map List.length).sum = N) (hN : N < 2 ^ 64) :
    ∃ S S' d, update_all (blake2b_init n).2 pieces = some S ∧
      128 ∣ S.t.1 + 2 ^ 64 * S.t.2 ∧ S.t.1 + 2 ^ 64 * S.t.2 + S.buflen = N ∧
      blake2b_final S o = some (0, S', d) ∧ S'.t.1 + 2 ^ 64 * S'.t.2 = N := by
  have hlen : pieces.flatten.length = N := by
    rw [List.length_flatten, ← hsum]
  obtain ⟨S, e, r⟩ := update_all_rep pieces _ _ _ (init_rep n)
  rw [List.nil_append] at r
  obtain ⟨c1, c2, c3⟩ := feed_counter (blake2b_init n).2 pieces.flatten rfl
    (by rw [hlen]; show 0 + N < 2 ^ 64; omega) (Dvd.intro 0 rfl)
  have ht : S.t = ((feed (blake2b_init n).2 pieces.flatten).1.t.1, 0) := by
    rw [r.2.2.2.2.2.1]
    exact Prod.ext rfl c1
  have hbl : S.buflen = (feed (blake2b_init n).2 pieces.flatten).2.length := r.2.1
  have hc2 : (feed (blake2b_init n).2 pieces.flatten).1.t.1
      + (feed (blake2b_init n).2 pieces.flatten).2.length = N := by
    rw [c2, hlen]; show 0 + N = N; omega
  have ho : S.outlen = n % 256 := by
    rw [r.2.2.2.2.2.2.2.1, feed_outlen, init_outlen]
  have hs := final_unfold S o r.1 (by rw [r.2.1]; exact r.2.2.1)
  rw [if_pos (by rw [ho]; omega)] at hs
  refine ⟨S, _, _, e, ?_, ?_, hs, ?_⟩
  · rw [ht]
    dsimp only
    omega
  · rw [ht, hbl]
    dsimp only
    omega
  · rw [(compress_frame _ _).1]
    dsimp only
    unfold blake2b_increment_counter
    rw [ht, hbl]
    dsimp only
    split <;> omega

theorem blake2b_counter_invariant_witness :
    (1 ≤ 64 ∧ 64 ≤ 64 ∧ ([List.replicate 200 1, [2, 3]].map List.length).sum = 202 ∧
      202 < 2 ^ 64) ∧
    ∃ S S' d, update_all (blake2b_init 64).2 [List.replicate 200 1, [2, 3]] = some S ∧
      128 ∣ S.t.1 + 2 ^ 64 * S.t.2 ∧ S.t.1 + 2 ^ 64 * S.t.2 + S.buflen = 202 ∧
      blake2b_final S 64 = some (0, S', d) ∧ S'.t.1 + 2 ^ 64 * S'.t.2 = 202 :=
  ⟨⟨by decide, by decide, by decide!, by decide⟩,
    blake2b_counter_invariant 64 64 202 [List.replicate 200 1, [2, 3]]
      (by decide) (by decide) (by decide!) (by decide)⟩

/-- C18: `blake2b_increment_counter` is exact 128-bit addition with carry on 64-bit
words: the new counter is `(t[0] + 2^64 * t[1] + inc) mod 2^128`; the low word is
`(t[0] + inc) mod 2^64`, the high word is incremented by exactly 1 (mod `2^64`) when
`t[0] + inc ≥ 2^64` and unchanged otherwise; no other field changes. -/
theorem blake2b_increment_counter_exact (S : blake2b_state) (inc : Nat)
    (h0 : S.t.1 < 2 ^ 64) (h1 : S.t.2 < 2 ^ 64) (hi : inc < 2 ^ 64) :
    (blake2b_increment_counter S inc).t.1 + 2 ^ 64 * (blake2b_increment_counter S inc).t.2
      = (S.t.1 + 2 ^ 64 * S.t.2 + inc) % 2 ^ 128 ∧
    (blake2b_increment_counter S inc).t.1 = (S.t.1 + inc) % 2 ^ 64 ∧
    (2 ^ 64 ≤ S.t.1 + inc → (blake2b_increment_counter S inc).t.2 = (S.t.2 + 1) % 2 ^ 64) ∧
    (S.t.1 + inc < 2 ^ 64 → (blake2b_increment_counter S inc).t.2 = S.t.2) ∧
    (blake2b_increment_counter S inc).t.1 < 2 ^ 64 ∧
    (blake2b_increment_counter S inc).t.2 < 2 ^ 64 ∧
    blake2b_increment_counter S inc = { S with t := (blake2b_increment_counter S inc).t } := by
  unfold blake2b_increment_counter
  dsimp only
  refine ⟨?_, rfl, ?_, ?_, ?_, ?_, rfl⟩
  · split <;> omega
  · intro h; split <;> omega
  · intro h; split <;> omega
  · omega
  · split <;> omega

theorem blake2b_increment_counter_exact_witness :
    ((2 ^ 64 - 1 : Nat) < 2 ^ 64 ∧ (2 ^ 64 - 1 : Nat) < 2 ^ 64 ∧ (128 : Nat) < 2 ^ 64) ∧
    ((blake2b_increment_counter { blake2b_init0 with t := (2 ^ 64 - 1, 2 ^ 64 - 1) } 128).t.1
      + 2 ^ 64 * (blake2b_increment_counter
          { blake2b_init0 with t := (2 ^ 64 - 1, 2 ^ 64 - 1) } 128).t.2
      = (({ blake2b_init0 with t := (2 ^ 64 - 1, 2 ^ 64 - 1) } : blake2b_state).t.1
          + 2 ^ 64 * ({ blake2b_init0 with t := (2 ^ 64 - 1, 2 ^ 64 - 1) } : blake2b_state).t.2
          + 128) % 2 ^ 128 ∧
    (blake2b_increment_counter { blake2b_init0 with t := (2 ^ 64 - 1, 2 ^ 64 - 1) } 128).t.1
      = (({ blake2b_init0 with t := (2 ^ 64 - 1, 2 ^ 64 - 1) } : blake2b_state).t.1 + 128)
          % 2 ^ 64 ∧
    (2 ^ 64 ≤ ({ blake2b_init0 with t := (2 ^ 64 - 1, 2 ^ 64 - 1) } : blake2b_state).t.1 + 128 →
      (blake2b_increment_counter { blake2b_init0 with t := (2 ^ 64 - 1, 2 ^ 64 - 1) } 128).t.2
        = (({ blake2b_init0 with t := (2 ^ 64 - 1, 2 ^ 64 - 1) } : blake2b_state).t.2 + 1)
            % 2 ^ 64) ∧
    (({ blake2b_init0 with t := (2 ^ 64 - 1, 2 ^ 64 - 1) } : blake2b_state).t.1 + 128 < 2 ^ 64 →
      (blake2b_increment_counter { blake2b_init0 with t := (2 ^ 64 - 1, 2 ^ 64 - 1) } 128).t.2
        = ({ blake2b_init0 with t := (2 ^ 64 - 1, 2 ^ 64 - 1) } : blake2b_state).t.2) ∧
    (blake2b_increment_counter { blake2b_init0 with t := (2 ^ 64 - 1, 2 ^ 64 - 1) } 128).t.1
      < 2 ^ 64 ∧
    (blake2b_increment_counter { blake2b_init0 with t := (2 ^ 64 - 1, 2 ^ 64 - 1) } 128).t.2
      < 2 ^ 64 ∧
    blake2b_increment_counter { blake2b_init0 with t := (2 ^ 64 - 1, 2 ^ 64 - 1) } 128
      = { ({ blake2b_init0 with t := (2 ^ 64 - 1, 2 ^ 64 - 1) } : blake2b_state) with
          t := (blake2b_increment_counter
            { blake2b_init0 with t := (2 ^ 64 - 1, 2 ^ 64 - 1) } 128).t }) :=
  ⟨⟨by decide, by decide, by decide⟩,
    blake2b_increment_counter_exact { blake2b_init0 with t := (2 ^ 64 - 1, 2 ^ 64 - 1) } 128
      (by decide) (by decide) (by decide)⟩

/-! ## The sigma schedule and the initial state (C17, C19) -/

/-- C17: `blake2b_sigma` has 12 rows, each a permutation of `0, ..., 15` (so every index
`sigma[r][j]` read by the macro `G` is below 16 and every round uses each message
word once); rows 10 and 11 are rows 0 and 1, and rows 0..9 are pairwise distinct. -/
theorem blake2b_sigma_well_formed :
    blake2b_sigma.length = 12 ∧
    (∀ r, r < 12 → (blake2b_sigma.getD r []).Perm (List.range 16)) ∧
    (∀ r, r < 12 → ∀ j, j < 16 → word_at (blake2b_sigma.getD r []) j < 16) ∧
    blake2b_sigma.getD 10 [] = blake2b_sigma.getD 0 [] ∧
    blake2b_sigma.getD 11 [] = blake2b_sigma.getD 1 [] ∧
    (blake2b_sigma.take 10).Nodup ∧
    (blake2b_sigma.eraseDups).length = 10 := by
  decide!

theorem init_state_all :
    ∀ outlen, outlen < 65 → 1 ≤ outlen →
      blake2b_init outlen = (0, init_state_spec outlen) := by
  decide!

/-- C19: for every `outlen` in `1..64`, `blake2b_init(outlen)` returns 0 and leaves
`h[0] = IV[0] xor (0x01010000 + outlen)`, `h[i] = IV[i]` for `i = 1..7`, `t = (0,0)`,
`f = (0,0)`, `buflen = 0`, `buf` all zero, `last_node = 0` and `outlen = outlen`. -/
theorem blake2b_init_state (outlen : Nat) (h1 : 1 ≤ outlen) (h2 : outlen ≤ 64) :
    blake2b_init outlen = (0, init_state_spec outlen) ∧
    (blake2b_init outlen).2.h.getD 0 0 = blake2b_IV.getD 0 0 ^^^ (0x01010000 + outlen) ∧
    (∀ i, 1 ≤ i → i < 8 → (blake2b_init outlen).2.h.getD i 0 = blake2b_IV.getD i 0) ∧
    (blake2b_init outlen).2.h.length = 8 ∧
    (blake2b_init outlen).2.t = (0, 0) ∧ (blake2b_init outlen).2.f = (0, 0) ∧
    (blake2b_init outlen).2.buflen = 0 ∧
    (blake2b_init outlen).2.buf = List.replicate 128 0 ∧
    (blake2b_init outlen).2.last_node = 0 ∧ (blake2b_init outlen).2.outlen = outlen := by
  have h := init_state_all outlen (by omega) h1
  rw [h]
  refine ⟨rfl, rfl, ?_, rfl, rfl, rfl, rfl, rfl, rfl, rfl⟩
  intro i hi1 hi8
  interval_cases i <;> rfl

theorem blake2b_init_state_witness :
    (1 ≤ 32 ∧ 32 ≤ 64) ∧
    (blake2b_init 32 = (0, init_state_spec 32) ∧
    (blake2b_init 32).2.h.getD 0 0 = blake2b_IV.getD 0 0 ^^^ (0x01010000 + 32) ∧
    (∀ i, 1 ≤ i → i < 8 → (blake2b_init 32).2.h.getD i 0 = blake2b_IV.getD i 0) ∧
    (blake2b_init 32).2.h.length = 8 ∧
    (blake2b_init 32).2.t = (0, 0) ∧ (blake2b_init 32).2.f = (0, 0) ∧
    (blake2b_init 32).2.buflen = 0 ∧
    (blake2b_init 32).2.buf = List.replicate 128 0 ∧
    (blake2b_init 32).2.last_node = 0 ∧ (blake2b_init 32).2.outlen = 32) :=
  ⟨by decide, blake2b_init_state 32 (by decide) (by decide)⟩

/-! ## The key arguments of the one-shot hash (C20) -/

/-- C20: the one-shot `blake2b` ignores `key` and `keylen`: for every `outlen`, input and
any two keys the bytes written are the same, those of the unkeyed sequence
`blake2b_init(outlen)`, `blake2b_update(in)`, `blake2b_final`. -/
theorem blake2b_ignores_key (ret ret' : Int) (outlen : Nat) (pin key key' : List Nat) :
    (blake2b ret outlen pin key).map Prod.snd = (blake2b ret' outlen pin key').map Prod.snd ∧
    (blake2b ret outlen pin key).map Prod.snd = hash_pieces outlen [pin] ∧
    blake2b ret outlen pin key = blake2b ret outlen pin key' := by
  have h : ∀ (r : Int) (k : List Nat),
      (blake2b r outlen pin k).map Prod.snd = hash_pieces outlen [pin] := by
    intro r k
    unfold blake2b hash_pieces update_all
    dsimp only
    cases blake2b_update (blake2b_init outlen).2 pin with
    | none => rfl
    | some q =>
      obtain ⟨s, S⟩ := q
      dsimp only [update_all]
      cases blake2b_final S outlen with
      | none => rfl
      | some q2 => rfl
  exact ⟨by rw [h, h], h ret key, rfl⟩
theorem range12 : List.range 12 = [0, 1, 2, 3, 4, 5, 6, 7, 8, 9, 10, 11] := by decide

theorem G_eq_ref_mix (m : List Nat) (r i a b c d : Nat) :
    ref_mix a b c d (m.getD ((blake2b_sigma.getD r []).getD (2 * i) 0) 0)
      (m.getD ((blake2b_sigma.getD r []).getD (2 * i + 1) 0) 0) = G m r i a b c d := by
  unfold G ref_mix
  simp only [word_at_eq_getD, Nat.add_zero]

theorem ref_apply_eq (m : List Nat) (r i : Nat) (v : List Nat) :
    ref_apply m r v i =
      ((((v.set (ref_quads.getD i (0, 0, 0, 0)).1
          (G m r i (v.getD (ref_quads.getD i (0, 0, 0, 0)).1 0)
            (v.getD (ref_quads.getD i (0, 0, 0, 0)).2.1 0)
            (v.getD (ref_quads.getD i (0, 0, 0, 0)).2.2.1 0)
            (v.getD (ref_quads.getD i (0, 0, 0, 0)).2.2.2 0)).1).set
        (ref_quads.getD i (0, 0, 0, 0)).2.1
          (G m r i (v.getD (ref_quads.getD i (0, 0, 0, 0)).1 0)
            (v.getD (ref_quads.getD i (0, 0, 0, 0)).2.1 0)
            (v.getD (ref_quads.getD i (0, 0, 0, 0)).2.2.1 0)
            (v.getD (ref_quads.getD i (0, 0, 0, 0)).2.2.2 0)).2.1).set
        (ref_quads.getD i (0, 0, 0, 0)).2.2.1
          (G m r i (v.getD (ref_quads.getD i (0, 0, 0, 0)).1 0)
            (v.getD (ref_quads.getD i (0, 0, 0, 0)).2.1 0)
            (v.getD (ref_quads.getD i (0, 0, 0, 0)).2.2.1 0)
            (v.getD (ref_quads.getD i (0, 0, 0, 0)).2.2.2 0)).2.2.1).set
        (ref_quads.getD i (0, 0, 0, 0)).2.2.2
          (G m r i (v.getD (ref_quads.getD i (0, 0, 0, 0)).1 0)
            (v.getD (ref_quads.getD i (0, 0, 0, 0)).2.1 0)
            (v.getD (ref_quads.getD i (0, 0, 0, 0)).2.2.1 0)
            (v.getD (ref_quads.getD i (0, 0, 0, 0)).2.2.2 0)).2.2.2) := by
  unfold ref_apply
  simp only [G_eq_ref_mix]

theorem ref_round_explicit (m : List Nat) (r : Nat) (v0 v1 v2 v3 v4 v5 v6 v7 v8 v9 v10 v11 v12 v13 v14 v15 : Nat) :
    ref_round m [v0, v1, v2, v3, v4, v5, v6, v7, v8, v9, v10, v11, v12, v13, v14, v15] r =
      (
      let (v0, v4, v8, v12) := G m r 0 v0 v4 v8 v12
      let (v1, v5, v9, v13) := G m r 1 v1 v5 v9 v13
      let (v2, v6, v10, v14) := G m r 2 v2 v6 v10 v14
      let (v3, v7, v11, v15) := G m r 3 v3 v7 v11 v15
      let (v0, v5, v10, v15) := G m r 4 v0 v5 v10 v15
      let (v1, v6, v11, v12) := G m r 5 v1 v6 v11 v12
      let (v2, v7, v8, v13) := G m r 6 v2 v7 v8 v13
      let (v3, v4, v9, v14) := G m r 7 v3 v4 v9 v14
      [v0, v1, v2, v3, v4, v5, v6, v7, v8, v9, v10, v11, v12, v13, v14, v15]) := by
  unfold ref_round
  rw [range8]
  simp only [List.foldl, ref_apply_eq, ref_quads, List.getD_cons_zero, List.getD_cons_succ,
    List.set_cons_zero, List.set_cons_succ]

set_option maxRecDepth 100000 in
/-- The 96 unrolled applications of `G` are the twelve rounds of the looped reference. -/
theorem compress_rounds_eq_ref (m v : List Nat) :
    compress_rounds m v = (List.range 12).foldl (ref_round m)
      [v.getD 0 0, v.getD 1 0, v.getD 2 0, v.getD 3 0, v.getD 4 0, v.getD 5 0, v.getD 6 0, v.getD 7 0, v.getD 8 0, v.getD 9 0, v.getD 10 0, v.getD 11 0, v.getD 12 0, v.getD 13 0, v.getD 14 0, v.getD 15 0] := by
  unfold compress_rounds
  conv => lhs; zeta
  generalize v.getD 0 0 = v0
  generalize v.getD 1 0 = v1
  generalize v.getD 2 0 = v2
  generalize v.getD 3 0 = v3
  generalize v.getD 4 0 = v4
  generalize v.getD 5 0 = v5
  generalize v.getD 6 0 = v6
  generalize v.getD 7 0 = v7
  generalize v.getD 8 0 = v8
  generalize v.getD 9 0 = v9
  generalize v.getD 10 0 = v10
  generalize v.getD 11 0 = v11
  generalize v.getD 12 0 = v12
  generalize v.getD 13 0 = v13
  generalize v.getD 14 0 = v14
  generalize v.getD 15 0 = v15
  rewrite [range12]
  iterate 12
    rewrite [List.foldl_cons, ref_round_explicit]
    split
    split
    split
    split
    split
    split
    split
    split
  rfl

theorem list8 (l : List Nat) (h : l.length = 8) :
    l = [l.getD 0 0, l.getD 1 0, l.getD 2 0, l.getD 3 0, l.getD 4 0, l.getD 5 0, l.getD 6 0,
      l.getD 7 0] := by
  rcases l with _ | ⟨a0, _ | ⟨a1, _ | ⟨a2, _ | ⟨a3, _ | ⟨a4, _ | ⟨a5, _ | ⟨a6, _ | ⟨a7, _ | ⟨a8, l⟩⟩⟩⟩⟩⟩⟩⟩⟩ <;>
    first | rfl | (simp at h)

theorem load64_drop (block : List Nat) (i : Nat) :
    load64 (block.drop (i * 8)) =
      ((List.range 8).map (fun k => block.getD (8 * i + k) 0 * 256 ^ k)).sum := by
  unfold load64
  rw [range8]
  simp only [List.getD_eq_getElem?_getD, List.getElem?_drop, List.map_cons, List.map_nil,
    List.sum_cons, List.sum_nil]
  have e : i * 8 = 8 * i := Nat.mul_comm _ _
  rw [e]
  norm_num
  ring

theorem work_vector_eq (S : blake2b_state) (hh : S.h.length = 8) (v : List Nat)
    (hv : v = (List.range 8).map (fun i => S.h.getD i 0) ++
      [blake2b_IV.getD 0 0, blake2b_IV.getD 1 0, blake2b_IV.getD 2 0, blake2b_IV.getD 3 0,
       blake2b_IV.getD 4 0 ^^^ S.t.1, blake2b_IV.getD 5 0 ^^^ S.t.2,
       blake2b_IV.getD 6 0 ^^^ S.f.1, blake2b_IV.getD 7 0 ^^^ S.f.2]) :
    [v.getD 0 0, v.getD 1 0, v.getD 2 0, v.getD 3 0, v.getD 4 0, v.getD 5 0, v.getD 6 0, v.getD 7 0, v.getD 8 0, v.getD 9 0, v.getD 10 0, v.getD 11 0, v.getD 12 0, v.getD 13 0, v.getD 14 0, v.getD 15 0] =
      S.h.take 8 ++ blake2b_IV.take 4 ++
        [blake2b_IV.getD 4 0 ^^^ S.t.1, blake2b_IV.getD 5 0 ^^^ S.t.2,
         blake2b_IV.getD 6 0 ^^^ S.f.1, blake2b_IV.getD 7 0 ^^^ S.f.2] := by
  have h4 : blake2b_IV.take 4 =
      [blake2b_IV.getD 0 0, blake2b_IV.getD 1 0, blake2b_IV.getD 2 0, blake2b_IV.getD 3 0] := by
    decide
  have ht : S.h.take 8 = S.h := List.take_of_length_le (Nat.le_of_eq hh)
  rw [h4, ht, hv, range8]
  conv => rhs; rw [list8 S.h hh]
  rfl

/-- C16: the macro-unrolled `blake2b_compress` equals the looped reference compression
`ref_compress` for every state (whose `h` is the array of 8 words it is in C) and every
block: same message words, same initial work vector, twelve rounds of the mixing function
on the columns and then the diagonals with the message words chosen by `sigma`, the new
chaining value `h[i] ^ v[i] ^ v[i+8]`, and no field of the state other than `h` changes. -/
theorem blake2b_compress_eq_reference (S : blake2b_state) (block : List Nat)
    (hh : S.h.length = 8) :
    blake2b_compress S block = ref_compress S block ∧
    (blake2b_compress S block).t = S.t ∧ (blake2b_compress S block).f = S.f ∧
    (blake2b_compress S block).buf = S.buf ∧ (blake2b_compress S block).buflen = S.buflen ∧
    (blake2b_compress S block).outlen = S.outlen ∧
    (blake2b_compress S block).last_node = S.last_node := by
  refine ⟨?_, rfl, rfl, rfl, rfl, rfl, rfl⟩
  have hm : (List.range 16).map (fun i => load64 (block.drop (i * 8))) =
      (List.range 16).map (fun i =>
        ((List.range 8).map (fun k => block.getD (8 * i + k) 0 * 256 ^ k)).sum) :=
    List.map_congr_left (fun i _ => load64_drop block i)
  unfold blake2b_compress ref_compress
  dsimp only
  rw [hm, compress_rounds_eq_ref, work_vector_eq S hh _ rfl]

/-- Witness for C16: the freshly initialised 64-byte state and the all-zero block. -/
theorem blake2b_compress_eq_reference_witness :
    (blake2b_init 64).2.h.length = 8 ∧
    (blake2b_compress (blake2b_init 64).2 (List.replicate 128 0) =
        ref_compress (blake2b_init 64).2 (List.replicate 128 0) ∧
      (blake2b_compress (blake2b_init 64).2 (List.replicate 128 0)).t = (blake2b_init 64).2.t ∧
      (blake2b_compress (blake2b_init 64).2 (List.replicate 128 0)).f = (blake2b_init 64).2.f ∧
      (blake2b_compress (blake2b_init 64).2 (List.replicate 128 0)).buf =
        (blake2b_init 64).2.buf ∧
      (blake2b_compress (blake2b_init 64).2 (List.replicate 128 0)).buflen =
        (blake2b_init 64).2.buflen ∧
      (blake2b_compress (blake2b_init 64).2 (List.replicate 128 0)).outlen =
        (blake2b_init 64).2.outlen ∧
      (blake2b_compress (blake2b_init 64).2 (List.replicate 128 0)).last_node =
        (blake2b_init 64).2.last_node) :=
  ⟨by decide, blake2b_compress_eq_reference _ _ (by decide)⟩


end Blake2b
